import Mathlib

/-!
Verification of the hex-grid pathfinding core of `slsdo/chippy`
(`src/lib/pathfinding.ts`) against its natural-language specification.

The TypeScript source of `pathfinding.ts` is embedded shallowly below:
pure functions become Lean functions, the A* / BFS loops become
fuel-indexed or measure-terminating recursions, and the mutable
`PathfindingCache` becomes explicit state passing.  The collaborator
modules `hex.ts`, `priorityQueue.ts`, `memoization.ts`, `grid.ts` and
`constants.ts` are not part of the available sources; their definitions
are modelled from the specification and are marked as such in their
doc comments.
-/

namespace Chippy

/-- Modelled from the spec: `hex.ts` is not in the sources.  A hex is an
axial coordinate pair `(q, r)`; the cube coordinate `s` is `-q - r`, so
the cube invariant `q + r + s = 0` holds by construction. -/
structure Hex where
  q : Int
  r : Int
deriving DecidableEq, Repr

/-- The derived cube coordinate `s = -q - r`. -/
def Hex.s (h : Hex) : Int := -h.q - h.r

/-- Modelled from the spec: the hex-grid metric
`(|dq| + |dr| + |ds|) / 2` (symmetric, zero iff equal, triangle
inequality). -/
def Hex.distance (a b : Hex) : Nat :=
  ((a.q - b.q).natAbs + (a.r - b.r).natAbs + (a.s - b.s).natAbs) / 2

/-- Modelled from the spec: the fixed ordered enumeration of the six
axial direction offsets (direction indices 0-5). -/
def hexDirections : Fin 6 → Int × Int
  | 0 => (1, 0)
  | 1 => (1, -1)
  | 2 => (0, -1)
  | 3 => (-1, 0)
  | 4 => (-1, 1)
  | 5 => (0, 1)

/-- Modelled from the spec: `neighbor(hex, direction)` is a pure function
of the direction index; each of the six results is at distance 1. -/
def Hex.neighbor (h : Hex) (d : Fin 6) : Hex :=
  ⟨h.q + (hexDirections d).1, h.r + (hexDirections d).2⟩

/-- Modelled from the spec: tile states (`types/state.ts` is not in the
sources): default, blocked, breakable-blocked, available/occupied for
each team. -/
inductive State where
  | DEFAULT
  | BLOCKED
  | BLOCKED_BREAKABLE
  | AVAILABLE_ALLY
  | OCCUPIED_ALLY
  | AVAILABLE_ENEMY
  | OCCUPIED_ENEMY
deriving DecidableEq, Repr

/-- Modelled from the spec: the two teams (`types/team.ts` is not in the
sources). -/
inductive Team where
  | ALLY
  | ENEMY
deriving DecidableEq, Repr

/-- Modelled from the spec: a grid tile (`grid.ts` is not in the
sources) associates a hex with a state, an optional team and an optional
occupant identity. -/
structure GridTile where
  hex : Hex
  state : State
  team : Option Team
  character : Option String
deriving DecidableEq, Repr

/-- A TypeScript `number` that is either a natural movement distance or
`Infinity`. -/
inductive MovementDist where
  | fin (n : Nat)
  | inf
deriving DecidableEq, Repr

/-- JavaScript `<` on movement distances: `Infinity < x` is false and
`n < Infinity` is true for finite `n`. -/
def movLt : MovementDist → MovementDist → Bool
  | .fin a, .fin b => a < b
  | .fin _, .inf => true
  | .inf, _ => false

/-- `DistanceResult` from `pathfinding.ts`. -/
structure DistanceResult where
  movementDistance : MovementDist
  canReach : Bool
  directDistance : Nat
deriving DecidableEq, Repr

/-- `RangedDistanceResult` from `pathfinding.ts`. -/
structure RangedDistanceResult where
  movementDistance : MovementDist
  canReach : Bool
  reachableTargets : List Hex
deriving DecidableEq, Repr

/-- `TargetResult` from `pathfinding.ts`. -/
structure TargetResult where
  hexId : Int
  distance : MovementDist
deriving DecidableEq, Repr

/-- `TargetInfo` from `pathfinding.ts` (both optional fields made
explicit). -/
structure TargetInfo where
  enemyHexId : Option Int
  allyHexId : Option Int
  distance : MovementDist
deriving DecidableEq, Repr

/-- Modelled from the spec: `constants.ts` is not in the sources.  The
grid preset is accepted by the target-acquisition functions but never
consulted by them. -/
structure GridPreset where
  tag : Nat
deriving DecidableEq, Repr

/-- The default `FULL_GRID` preset. -/
def FULL_GRID : GridPreset := ⟨0⟩

/-- `PathNode` from `pathfinding.ts`: a search-tree node with hex,
accumulated cost `g`, heuristic `h`, total `f` and a parent link. -/
inductive PathNode where
  | mk (hex : Hex) (g : Nat) (hcost : Nat) (fcost : Nat) (parent : Option PathNode)

/-- The hex of a path node. -/
def PathNode.hex : PathNode → Hex
  | .mk x _ _ _ _ => x

/-- The accumulated cost `g` of a path node. -/
def PathNode.g : PathNode → Nat
  | .mk _ g _ _ _ => g

/-- The heuristic `h` of a path node. -/
def PathNode.hcost : PathNode → Nat
  | .mk _ _ h _ _ => h

/-- The total score `f` of a path node. -/
def PathNode.fcost : PathNode → Nat
  | .mk _ _ _ f _ => f

/-- The parent link of a path node. -/
def PathNode.parent : PathNode → Option PathNode
  | .mk _ _ _ _ p => p

/-- Modelled from the spec: `priorityQueue.ts` is not in the sources.  A
min-priority queue is a list sorted by ascending priority; insertion is
stable (FIFO among equal priorities), which realises the required
deterministic tie-break. -/
abbrev PQ (α : Type) : Type := List (α × Nat)

/-- Stable sorted insertion: the new entry goes after every entry of
priority less than or equal to its own. -/
def PQ.enqueue {α : Type} : PQ α → α → Nat → PQ α
  | [], x, p => [(x, p)]
  | (y, py) :: rest, x, p =>
    if py ≤ p then (y, py) :: PQ.enqueue rest x p else (x, p) :: (y, py) :: rest

/-- Dequeue the lowest-priority entry (the head of the sorted list). -/
def PQ.dequeue {α : Type} : PQ α → Option (α × PQ α)
  | [] => none
  | e :: rest => some (e.1, rest)

/-- Whether the queue is empty. -/
def PQ.isEmpty {α : Type} (q : PQ α) : Bool :=
  match q with
  | [] => true
  | _ :: _ => false

/-- Remove the first entry whose item satisfies the predicate. -/
def PQ.removeFirstBy {α : Type} : PQ α → (α → Bool) → PQ α
  | [], _ => []
  | e :: rest, p => if p e.1 then rest else e :: PQ.removeFirstBy rest p

/-- Modelled from the spec: `updatePriority` relocates the existing
logical entry matched by the equality predicate to its new priority
position. -/
def PQ.updatePriority {α : Type} (q : PQ α) (x : α) (p : Nat) (eq : α → α → Bool) : PQ α :=
  (q.removeFirstBy (fun y => eq x y)).enqueue x p

/-- Association-list lookup for the A* node map (keyed by the hex; the
canonical string key of the source is injective on hexes, so the hex
itself serves as the key). -/
def lookupNode (nm : List (Hex × PathNode)) (h : Hex) : Option PathNode :=
  (nm.find? (fun e => e.1 == h)).map (·.2)

/-- JavaScript `Map.set`: replace the value in place if the key exists,
append otherwise. -/
def setNode (nm : List (Hex × PathNode)) (h : Hex) (n : PathNode) : List (Hex × PathNode) :=
  if nm.any (fun e => e.1 == h) then
    nm.map (fun e => if e.1 == h then (h, n) else e)
  else nm ++ [(h, n)]

/-- Path reconstruction of `findPath`: walk the parent chain, building
the hex sequence from start to the current node. -/
def reconstruct : PathNode → List Hex
  | .mk hex _ _ _ none => [hex]
  | .mk hex _ _ _ (some p) => reconstruct p ++ [hex]

/-- The neighbor-expansion body of `findPath` for one direction: skip
closed or non-traversable neighbors, insert a fresh node, or relax an
existing one (updating its queue priority). -/
def processNeighbor (goal : Hex) (getTile : Hex → Option GridTile)
    (canTraverse : GridTile → Bool) (closed : List Hex) (current : PathNode)
    (acc : PQ PathNode × List (Hex × PathNode)) (d : Fin 6) :
    PQ PathNode × List (Hex × PathNode) :=
  let nb := current.hex.neighbor d
  if closed.contains nb then acc
  else
    match getTile nb with
    | none => acc
    | some tile =>
      if !canTraverse tile then acc
      else
        let tentativeG := current.g + 1
        match lookupNode acc.2 nb with
        | none =>
          let node : PathNode := .mk nb tentativeG (nb.distance goal)
            (tentativeG + nb.distance goal) (some current)
          (acc.1.enqueue node (tentativeG + nb.distance goal), setNode acc.2 nb node)
        | some old =>
          if tentativeG < old.g then
            let node : PathNode := .mk nb tentativeG old.hcost
              (tentativeG + old.hcost) (some current)
            (acc.1.updatePriority node (tentativeG + old.hcost)
              (fun a b => a.hex == b.hex), setNode acc.2 nb node)
          else acc

/-- The state of the A* main loop. -/
structure AStarState where
  openq : PQ PathNode
  closed : List Hex
  nodeMap : List (Hex × PathNode)

/-- The loop-body state update of `findPath` after a non-goal node is
dequeued: close the current hex and expand its six neighbors. -/
def expandState (goal : Hex) (getTile : Hex → Option GridTile)
    (canTraverse : GridTile → Bool) (st : AStarState) (current : PathNode)
    (rest : PQ PathNode) : AStarState :=
  let closed2 := st.closed ++ [current.hex]
  let step := (List.finRange 6).foldl
    (processNeighbor goal getTile canTraverse closed2 current) (rest, st.nodeMap)
  ⟨step.1, closed2, step.2⟩

/-- The `while (!openSet.isEmpty())` loop of `findPath`, indexed by fuel
(the number of loop iterations still allowed). `none` covers both the
open set emptying without reaching the goal and fuel running out. -/
def aStarLoop (goal : Hex) (getTile : Hex → Option GridTile)
    (canTraverse : GridTile → Bool) : Nat → AStarState → Option (List Hex)
  | 0, _ => none
  | fuel + 1, st =>
    match st.openq.dequeue with
    | none => none
    | some (current, rest) =>
      if current.hex = goal then some (reconstruct current)
      else aStarLoop goal getTile canTraverse fuel
        (expandState goal getTile canTraverse st current rest)

/-- `findPath` from `pathfinding.ts`: A* over the hex grid with unit
edge cost and the hex distance as heuristic.  The extra `fuel` argument
bounds the number of loop iterations of the embedding. -/
def findPath (start goal : Hex) (getTile : Hex → Option GridTile)
    (canTraverse : GridTile → Bool) (fuel : Nat) : Option (List Hex) :=
  let h := start.distance goal
  let startNode : PathNode := .mk start 0 h h none
  aStarLoop goal getTile canTraverse fuel ⟨[(startNode, h)], [], [(start, startNode)]⟩

/-- `findPathDistance` from `pathfinding.ts`: steps of the found path,
or absent. -/
def findPathDistance (start goal : Hex) (getTile : Hex → Option GridTile)
    (canTraverse : GridTile → Bool) (fuel : Nat) : Option Nat :=
  (findPath start goal getTile canTraverse fuel).map (fun path => path.length - 1)

/-- Modelled from the spec: `memoization.ts` is not in the sources.  A
bounded key-value cache with least-recently-used eviction: entries are
kept most-recently-used first; a hit refreshes recency, and `set`
truncates to the capacity, evicting from the LRU end. -/
structure MemoCache (K V : Type) where
  entries : List (K × V)
  capacity : Nat
deriving Repr

/-- The raw stored value for a key, if present. -/
def MemoCache.lookup {K V : Type} [DecidableEq K] (c : MemoCache K V) (k : K) : Option V :=
  (c.entries.find? (fun e => e.1 == k)).map (·.2)

/-- Cache read: returns the stored value (or none) together with the
cache after the LRU refresh. -/
def MemoCache.get {K V : Type} [DecidableEq K] (c : MemoCache K V) (k : K) :
    Option V × MemoCache K V :=
  match c.entries.find? (fun e => e.1 == k) with
  | none => (none, c)
  | some e => (some e.2, ⟨e :: c.entries.filter (fun e2 => !(e2.1 == k)), c.capacity⟩)

/-- Cache write: store the value most-recently-used and truncate to the
capacity. -/
def MemoCache.set {K V : Type} [DecidableEq K] (c : MemoCache K V) (k : K) (v : V) :
    MemoCache K V :=
  ⟨((k, v) :: c.entries.filter (fun e => !(e.1 == k))).take c.capacity, c.capacity⟩

/-- Modelled from the spec: the path/distance cache key is derived
deterministically and injectively from `(start id, goal id, range)`; the
triple itself serves as the key. -/
def generatePathCacheKey (startId goalId range : Int) : Int × Int × Int :=
  (startId, goalId, range)

/-- Modelled from the spec: the aggregate-map cache key is derived
deterministically from the full board configuration (occupied tiles,
teams and per-character ranges); the configuration itself serves as the
key (the spec additionally requires order-canonicalisation of the
string form, which no claim here depends on). -/
def generateGridCacheKey (tiles : List GridTile) (ranges : List (String × Int)) :
    List GridTile × List (String × Int) :=
  (tiles, ranges)

/-- `PathfindingCache` from `pathfinding.ts`: the four memo caches with
capacities 500, 500, 100 and 100. -/
structure PathfindingCache where
  pathCache : MemoCache (Int × Int × Int) (Option (List Hex))
  effectiveDistanceCache : MemoCache (Int × Int × Int) DistanceResult
  closestEnemyCache : MemoCache (List GridTile × List (String × Int)) (List (Int × TargetInfo))
  closestAllyCache : MemoCache (List GridTile × List (String × Int)) (List (Int × TargetInfo))

/-- A freshly constructed `PathfindingCache` (all four caches empty,
with the capacities fixed in the source). -/
def PathfindingCache.empty : PathfindingCache :=
  ⟨⟨[], 500⟩, ⟨[], 500⟩, ⟨[], 100⟩, ⟨[], 100⟩⟩

/-- `getStats` from `pathfinding.ts`: the four cache sizes. -/
def PathfindingCache.getStats (c : PathfindingCache) : Nat × Nat × Nat × Nat :=
  (c.pathCache.entries.length, c.effectiveDistanceCache.entries.length,
   c.closestEnemyCache.entries.length, c.closestAllyCache.entries.length)

/-- `calculateEffectiveDistance` from `pathfinding.ts`.  Returns the
result together with the cache after the call (unchanged when caching
is disabled).  `getId` is the stable hex identifier of the missing
`hex.ts`, passed explicitly. -/
def calculateEffectiveDistance (start goal : Hex) (range : Int)
    (getTile : Hex → Option GridTile) (canTraverse : GridTile → Bool)
    (cachingEnabled : Bool) (cache : PathfindingCache) (getId : Hex → Int)
    (fuel : Nat) : DistanceResult × PathfindingCache :=
  let key := generatePathCacheKey (getId start) (getId goal) range
  let hit : Option DistanceResult × PathfindingCache :=
    if cachingEnabled then
      let r := cache.effectiveDistanceCache.get key
      (r.1, { cache with effectiveDistanceCache := r.2 })
    else (none, cache)
  match hit with
  | (some cached, cache1) => (cached, cache1)
  | (none, cache1) =>
    let directDistance := start.distance goal
    if (directDistance : Int) ≤ range then
      let result : DistanceResult := ⟨.fin 0, true, directDistance⟩
      (result,
       if cachingEnabled then
         { cache1 with effectiveDistanceCache := cache1.effectiveDistanceCache.set key result }
       else cache1)
    else
      match findPath start goal getTile canTraverse fuel with
      | none =>
        let result : DistanceResult := ⟨.inf, false, directDistance⟩
        (result,
         if cachingEnabled then
           { cache1 with effectiveDistanceCache := cache1.effectiveDistanceCache.set key result }
         else cache1)
      | some path =>
        let pathLength : Int := (path.length : Int) - 1
        let movementNeeded : Nat := (pathLength - range).toNat
        let result : DistanceResult := ⟨.fin movementNeeded, true, directDistance⟩
        (result,
         if cachingEnabled then
           { cache1 with effectiveDistanceCache := cache1.effectiveDistanceCache.set key result }
         else cache1)

/-- The unreachable `RangedDistanceResult`. -/
def unreachableRanged : RangedDistanceResult := ⟨.inf, false, []⟩

/-- One direction of the BFS layer expansion of
`calculateRangedMovementDistance`: skip visited or non-traversable
neighbors, otherwise mark visited, push onto the next frontier and
accumulate every target within range of the new position.  The
accumulator is `(visited, nextQueue, reachableAtThisDistance)`. -/
def layerVisitDir (targets : List Hex) (range : Int)
    (getTile : Hex → Option GridTile) (canTraverse : GridTile → Bool)
    (currentHex : Hex) (acc : List Hex × List Hex × List Hex) (d : Fin 6) :
    List Hex × List Hex × List Hex :=
  let nb := currentHex.neighbor d
  if acc.1.contains nb then acc
  else
    match getTile nb with
    | none => acc
    | some tile =>
      if !canTraverse tile then acc
      else
        (acc.1 ++ [nb], acc.2.1 ++ [nb],
         acc.2.2 ++ targets.filter (fun t => (nb.distance t : Int) ≤ range))

/-- All six directions of the BFS layer expansion from one frontier
hex. -/
def layerVisitHex (targets : List Hex) (range : Int)
    (getTile : Hex → Option GridTile) (canTraverse : GridTile → Bool)
    (acc : List Hex × List Hex × List Hex) (currentHex : Hex) :
    List Hex × List Hex × List Hex :=
  (List.finRange 6).foldl (layerVisitDir targets range getTile canTraverse currentHex) acc

/-- One full BFS layer: expand every frontier hex in order, threading
the visited set, the next frontier and the accumulated reachable
targets. -/
def processLayer (targets : List Hex) (range : Int)
    (getTile : Hex → Option GridTile) (canTraverse : GridTile → Bool)
    (currentQueue visited : List Hex) : List Hex × List Hex × List Hex :=
  currentQueue.foldl (layerVisitHex targets range getTile canTraverse) (visited, [], [])

/-- First-occurrence deduplication, as performed by the JavaScript
`Set`-then-`find` idiom of the source. -/
def dedupKeepFirst (l : List Hex) : List Hex :=
  l.foldl (fun acc h => if acc.contains h then acc else acc ++ [h]) []

/-- The `while (currentQueue.length > 0 && currentMoves < 20)` loop of
`calculateRangedMovementDistance`.  The first argument is structural
fuel; the caller passes 20, which can never run out before the
`currentMoves < 20` guard fails (each iteration raises `currentMoves`
by one), so the fuel-exhaustion arm agrees with the guard-failure
arm. -/
def rangedLoop (targets : List Hex) (range : Int)
    (getTile : Hex → Option GridTile) (canTraverse : GridTile → Bool) :
    Nat → List Hex → List Hex → Nat → RangedDistanceResult
  | 0, _, _, _ => unreachableRanged
  | fuel + 1, currentQueue, visited, currentMoves =>
    if currentQueue ≠ [] ∧ currentMoves < 20 then
      let step := processLayer targets range getTile canTraverse currentQueue visited
      if step.2.2 ≠ [] then
        ⟨.fin (currentMoves + 1), true, dedupKeepFirst step.2.2⟩
      else
        rangedLoop targets range getTile canTraverse fuel step.2.1 step.1 (currentMoves + 1)
    else unreachableRanged

/-- `calculateRangedMovementDistance` from `pathfinding.ts`: BFS in
movement-cost layers with a hard cap of 20 layers. -/
def calculateRangedMovementDistance (start : Hex) (targets : List Hex) (range : Int)
    (getTile : Hex → Option GridTile) (canTraverse : GridTile → Bool) :
    RangedDistanceResult :=
  if targets = [] then unreachableRanged
  else
    let immediateTargets := targets.filter (fun t => (start.distance t : Int) ≤ range)
    if immediateTargets ≠ [] then ⟨.fin 0, true, immediateTargets⟩
    else rangedLoop targets range getTile canTraverse 20 [start] [start] 0

/-- `defaultCanTraverse` from `pathfinding.ts`: every state except
blocked and breakable-blocked is traversable. -/
def defaultCanTraverse (tile : GridTile) : Bool :=
  !(tile.state == State.BLOCKED) && !(tile.state == State.BLOCKED_BREAKABLE)

/-- The `rowEndings` table of `areHexesInSameDiagonalRow`. -/
def rowEndings : List Int := [2, 5, 7, 10, 14, 17, 21, 24, 28, 31, 35, 38, 40, 43, 45]

/-- The table scan of `getRowNumber`: the first index `i` (0-based) with
`hexId ≤ rowEndings[i]` yields row `i + 1`. -/
def tableRowAux : List Int → Nat → Int → Option Nat
  | [], _, _ => none
  | e :: rest, i, hexId =>
    if hexId ≤ e then some (i + 1) else tableRowAux rest (i + 1) hexId

/-- The fallback `while (hexId > currentEnd)` loop of `getRowNumber` for
identifiers beyond the table: row sizes are 4 when the row index is
congruent to 1 mod 4 (and above 4), 3 when even, 2 otherwise. -/
def rowSizeOf (rowNum : Nat) : Int :=
  if rowNum % 4 = 1 ∧ 4 < rowNum then 4
  else if rowNum % 2 = 0 then 3
  else 2

/-- Every fallback row size is at least 2. -/
theorem rowSizeOf_ge_two (rowNum : Nat) : 2 ≤ rowSizeOf rowNum := by
  unfold rowSizeOf
  split
  · omega
  · split <;> omega

/-- The fallback `while (hexId > currentEnd)` loop of `getRowNumber` for
identifiers beyond the table.  The first argument is structural fuel;
the caller passes `(hexId - 45).toNat`, which can never run out before
the `hexId > currentEnd` guard fails, because every iteration advances
`currentEnd` by at least 2, so the fuel-exhaustion arm (returning the
current row, as the source's trailing `return rowNum` does) is never
the arm that decides the result. -/
def fallbackRowLoop (hexId : Int) : Nat → Int → Nat → Nat
  | 0, _, rowNum => rowNum
  | fuel + 1, currentEnd, rowNum =>
    if hexId > currentEnd then
      if hexId ≤ currentEnd + rowSizeOf rowNum then rowNum + 1
      else fallbackRowLoop hexId fuel (currentEnd + rowSizeOf rowNum) (rowNum + 1)
    else rowNum

/-- `getRowNumber` from `areHexesInSameDiagonalRow`: table lookup for
identifiers up to 45, fallback loop beyond. -/
def getRowNumber (hexId : Int) : Nat :=
  match tableRowAux rowEndings 0 hexId with
  | some row => row
  | none => fallbackRowLoop hexId (hexId - 45).toNat 45 16

/-- `areHexesInSameDiagonalRow` from `pathfinding.ts`. -/
def areHexesInSameDiagonalRow (hexId1 hexId2 : Int) : Bool :=
  getRowNumber hexId1 == getRowNumber hexId2

/-- `isVerticallyAligned` from `pathfinding.ts`: same `q` coordinate. -/
def isVerticallyAligned (sourceHex targetHex : Hex) : Bool :=
  sourceHex.q == targetHex.q

/-- The tie-break comparison of the ranged branch of
`findClosestTarget`, applied between the running best and the next
candidate: prefer vertical alignment, then lower hex id within the same
diagonal row, then (when neither is aligned) smaller direct distance. -/
def tieBreakPick (getId : Hex → Int) (sourceHex : Hex) (best current : GridTile) :
    GridTile :=
  let currentIsVertical := isVerticallyAligned sourceHex current.hex
  let bestIsVertical := isVerticallyAligned sourceHex best.hex
  if currentIsVertical && !bestIsVertical then current
  else if !currentIsVertical && bestIsVertical then best
  else if areHexesInSameDiagonalRow (getId current.hex) (getId best.hex) then
    if getId current.hex < getId best.hex then current else best
  else if !currentIsVertical && !bestIsVertical then
    if sourceHex.distance current.hex < sourceHex.distance best.hex then current else best
  else best

/-- The traversability predicate with one hex always treated as
traversable. -/
def overrideAt (canTraverse : GridTile → Bool) (g : Hex) : GridTile → Bool :=
  fun tile => if tile.hex = g then true else canTraverse tile

/-- The `canTraverseToTarget` closure of the melee loop of
`findClosestTarget`: the target's own cell is always treated as
traversable. -/
def overrideTraverse (canTraverse : GridTile → Bool) (targetTile : GridTile) :
    GridTile → Bool :=
  overrideAt canTraverse targetTile.hex

/-- The body of the melee loop of `findClosestTarget` for one target
tile: range-aware pathfinding with the target's own cell treated as
traversable, then running-best update with the tie-break rules.  The
accumulator is `(closest, cache)`.  The source's non-null assertion on
the lookup of the current best tile is modelled by keeping the running
best when the lookup fails (that branch is unreachable, since the best
always comes from the same target list). -/
def meleeUpdate (sourceTile : GridTile) (targetTiles : List GridTile)
    (getId : Hex → Int) (closest : Option TargetResult) (targetTile : GridTile)
    (effectiveDistance : DistanceResult) : Option TargetResult :=
  if !effectiveDistance.canReach then closest
  else
    let distance := effectiveDistance.movementDistance
    match closest with
    | none => some ⟨getId targetTile.hex, distance⟩
    | some cl =>
      if movLt distance cl.distance then some ⟨getId targetTile.hex, distance⟩
      else if distance = cl.distance then
        let currentIsVertical := isVerticallyAligned sourceTile.hex targetTile.hex
        match targetTiles.find? (fun t => getId t.hex == cl.hexId) with
        | none => some cl
        | some closestTile =>
          let closestIsVertical := isVerticallyAligned sourceTile.hex closestTile.hex
          if currentIsVertical && !closestIsVertical then
            some ⟨getId targetTile.hex, distance⟩
          else if !currentIsVertical && closestIsVertical then some cl
          else if areHexesInSameDiagonalRow (getId targetTile.hex) cl.hexId then
            if getId targetTile.hex < cl.hexId then
              some ⟨getId targetTile.hex, distance⟩
            else some cl
          else if !currentIsVertical && !closestIsVertical then
            if sourceTile.hex.distance targetTile.hex < sourceTile.hex.distance closestTile.hex then
              some ⟨getId targetTile.hex, distance⟩
            else some cl
          else some cl
      else some cl

/-- The cache-threading wrapper of one melee iteration: run the
range-aware pathfinding call (with the target's own cell treated as
traversable), then apply the pure running-best update to its result. -/
def meleeLoopStep (sourceTile : GridTile) (targetTiles : List GridTile)
    (sourceRange : Int) (getTile : Hex → Option GridTile)
    (canTraverse : GridTile → Bool) (cachingEnabled : Bool) (getId : Hex → Int)
    (fuel : Nat) (acc : Option TargetResult × PathfindingCache)
    (targetTile : GridTile) : Option TargetResult × PathfindingCache :=
  let r := calculateEffectiveDistance sourceTile.hex targetTile.hex sourceRange
    getTile (overrideTraverse canTraverse targetTile) cachingEnabled acc.2 getId fuel
  (meleeUpdate sourceTile targetTiles getId acc.1 targetTile r.1, r.2)

/-- `findClosestTarget` from `pathfinding.ts`: ranged units
(`sourceRange > 1`) use the BFS-based ranged movement calculation and
apply the tie-break across all equally-close reachable targets; melee
units iterate every target through `calculateEffectiveDistance`,
tracking the running best.  Returns the result together with the cache
after the call. -/
def findClosestTarget (sourceTile : GridTile) (targetTiles : List GridTile)
    (sourceRange : Int) (getTile : Hex → Option GridTile)
    (canTraverse : GridTile → Bool) (gridPreset : GridPreset)
    (cachingEnabled : Bool) (cache : PathfindingCache) (getId : Hex → Int)
    (fuel : Nat) : Option TargetResult × PathfindingCache :=
  if targetTiles = [] then (none, cache)
  else if 1 < sourceRange then
    let targetHexes := targetTiles.map (·.hex)
    let rangedResult := calculateRangedMovementDistance sourceTile.hex targetHexes
      sourceRange getTile canTraverse
    if !rangedResult.canReach || rangedResult.reachableTargets = [] then (none, cache)
    else
      let candidateTargets := targetTiles.filter
        (fun tile => rangedResult.reachableTargets.any (fun rh => rh == tile.hex))
      match candidateTargets with
      | [] => (none, cache)
      | c0 :: rest =>
        let bestTarget := rest.foldl (tieBreakPick getId sourceTile.hex) c0
        (some ⟨getId bestTarget.hex, rangedResult.movementDistance⟩, cache)
  else
    targetTiles.foldl
      (meleeLoopStep sourceTile targetTiles sourceRange getTile canTraverse
        cachingEnabled getId fuel)
      (none, cache)

/-- JavaScript `Map.set` on an association list keyed by hex id:
replace in place if present, append otherwise. -/
def mapSet (m : List (Int × TargetInfo)) (k : Int) (v : TargetInfo) :
    List (Int × TargetInfo) :=
  if m.any (fun e => e.1 == k) then
    m.map (fun e => if e.1 == k then (k, v) else e)
  else m ++ [(k, v)]

/-- Lookup of a character's range in the supplied range map. -/
def lookupRange (ranges : List (String × Int)) (c : String) : Option Int :=
  (ranges.find? (fun e => e.1 == c)).map (·.2)

/-- The `getTileHelper` default of the aggregate maps: the supplied
lookup when present, otherwise a scan of the occupied-tile list. -/
def tileHelper (getTile : Option (Hex → Option GridTile)) (tiles : List GridTile) :
    Hex → Option GridTile :=
  match getTile with
  | some f => f
  | none => fun hex => tiles.find? (fun t => t.hex == hex)

/-- The pure recording update of the enemy map: record the found
target under the ally's hex id, or keep the map when none was found. -/
def mapRecordEnemy (getId : Hex → Int) (acc1 : List (Int × TargetInfo))
    (allyTile : GridTile) (res : Option TargetResult) : List (Int × TargetInfo) :=
  match res with
  | some closestEnemy =>
    mapSet acc1 (getId allyTile.hex) ⟨some closestEnemy.hexId, none, closestEnemy.distance⟩
  | none => acc1

/-- The pure recording update of the ally map: record the found target
under the enemy's hex id, or keep the map when none was found. -/
def mapRecordAlly (getId : Hex → Int) (acc1 : List (Int × TargetInfo))
    (enemyTile : GridTile) (res : Option TargetResult) : List (Int × TargetInfo) :=
  match res with
  | some closestAlly =>
    mapSet acc1 (getId enemyTile.hex) ⟨none, some closestAlly.hexId, closestAlly.distance⟩
  | none => acc1

/-- The per-ally body of `getClosestEnemyMap`: find the closest enemy
for one ally (range defaulting to 1) and record it under the ally's hex
id. -/
def enemyMapStep (enemyTiles : List GridTile)
    (characterRanges : List (String × Int)) (gridPreset : GridPreset)
    (cachingEnabled : Bool) (getTileHelper : Hex → Option GridTile)
    (getId : Hex → Int) (fuel : Nat)
    (acc : List (Int × TargetInfo) × PathfindingCache) (allyTile : GridTile) :
    List (Int × TargetInfo) × PathfindingCache :=
  let range := match allyTile.character with
    | some c => (lookupRange characterRanges c).getD 1
    | none => 1
  let r := findClosestTarget allyTile enemyTiles range getTileHelper
    defaultCanTraverse gridPreset cachingEnabled acc.2 getId fuel
  (mapRecordEnemy getId acc.1 allyTile r.1, r.2)

/-- `getClosestEnemyMap` from `pathfinding.ts`: for every ally tile,
find the closest enemy and record it keyed by the ally hex id; the
whole aggregate is cached under the board-configuration key. -/
def getClosestEnemyMap (tilesWithCharacters : List GridTile)
    (characterRanges : List (String × Int)) (gridPreset : GridPreset)
    (cachingEnabled : Bool) (getTile : Option (Hex → Option GridTile))
    (cache : PathfindingCache) (getId : Hex → Int) (fuel : Nat) :
    List (Int × TargetInfo) × PathfindingCache :=
  let key := generateGridCacheKey tilesWithCharacters characterRanges
  let hit : Option (List (Int × TargetInfo)) × PathfindingCache :=
    if cachingEnabled then
      let r := cache.closestEnemyCache.get key
      (r.1, { cache with closestEnemyCache := r.2 })
    else (none, cache)
  match hit with
  | (some cached, cache1) => (cached, cache1)
  | (none, cache1) =>
    let allyTiles := tilesWithCharacters.filter (fun tile => tile.team == some Team.ALLY)
    let enemyTiles := tilesWithCharacters.filter (fun tile => tile.team == some Team.ENEMY)
    let getTileHelper := tileHelper getTile tilesWithCharacters
    let r := allyTiles.foldl
      (enemyMapStep enemyTiles characterRanges gridPreset cachingEnabled
        getTileHelper getId fuel)
      ([], cache1)
    (r.1,
     if cachingEnabled then
       { r.2 with closestEnemyCache := r.2.closestEnemyCache.set key r.1 }
     else r.2)

/-- The per-enemy body of `getClosestAllyMap`: find the closest ally
for one enemy (range defaulting to 1) and record it under the enemy's
hex id. -/
def allyMapStep (allyTiles : List GridTile)
    (characterRanges : List (String × Int)) (gridPreset : GridPreset)
    (cachingEnabled : Bool) (getTileHelper : Hex → Option GridTile)
    (getId : Hex → Int) (fuel : Nat)
    (acc : List (Int × TargetInfo) × PathfindingCache) (enemyTile : GridTile) :
    List (Int × TargetInfo) × PathfindingCache :=
  let range := match enemyTile.character with
    | some c => (lookupRange characterRanges c).getD 1
    | none => 1
  let r := findClosestTarget enemyTile allyTiles range getTileHelper
    defaultCanTraverse gridPreset cachingEnabled acc.2 getId fuel
  (mapRecordAlly getId acc.1 enemyTile r.1, r.2)

/-- `getClosestAllyMap` from `pathfinding.ts`: for every enemy tile,
find the closest ally and record it keyed by the enemy hex id; the
whole aggregate is cached under the board-configuration key. -/
def getClosestAllyMap (tilesWithCharacters : List GridTile)
    (characterRanges : List (String × Int)) (gridPreset : GridPreset)
    (cachingEnabled : Bool) (getTile : Option (Hex → Option GridTile))
    (cache : PathfindingCache) (getId : Hex → Int) (fuel : Nat) :
    List (Int × TargetInfo) × PathfindingCache :=
  let key := generateGridCacheKey tilesWithCharacters characterRanges
  let hit : Option (List (Int × TargetInfo)) × PathfindingCache :=
    if cachingEnabled then
      let r := cache.closestAllyCache.get key
      (r.1, { cache with closestAllyCache := r.2 })
    else (none, cache)
  match hit with
  | (some cached, cache1) => (cached, cache1)
  | (none, cache1) =>
    let allyTiles := tilesWithCharacters.filter (fun tile => tile.team == some Team.ALLY)
    let enemyTiles := tilesWithCharacters.filter (fun tile => tile.team == some Team.ENEMY)
    let getTileHelper := tileHelper getTile tilesWithCharacters
    let r := enemyTiles.foldl
      (allyMapStep allyTiles characterRanges gridPreset cachingEnabled
        getTileHelper getId fuel)
      ([], cache1)
    (r.1,
     if cachingEnabled then
       { r.2 with closestAllyCache := r.2.closestAllyCache.set key r.1 }
     else r.2)

/-!
Proof layer.  First the branch structure of `calculateEffectiveDistance`
with caching disabled, then the claims in order.
-/

/-- With caching disabled, `calculateEffectiveDistance` leaves the cache
untouched and follows the fast-path / no-path / found-path branch
structure of the source. -/
theorem calculateEffectiveDistance_false (start goal : Hex) (range : Int)
    (getTile : Hex → Option GridTile) (canTraverse : GridTile → Bool)
    (cache : PathfindingCache) (getId : Hex → Int) (fuel : Nat) :
    calculateEffectiveDistance start goal range getTile canTraverse false cache getId fuel =
      (if (start.distance goal : Int) ≤ range then
        (⟨.fin 0, true, start.distance goal⟩, cache)
       else
        match findPath start goal getTile canTraverse fuel with
        | none => (⟨.inf, false, start.distance goal⟩, cache)
        | some path =>
          (⟨.fin (((path.length : Int) - 1) - range).toNat, true, start.distance goal⟩,
           cache)) := by
  unfold calculateEffectiveDistance
  simp only [Bool.false_eq_true, if_false]

/-- A concrete six-tile grid used by the witnesses: an open strip of
default tiles. -/
def wTiles : List GridTile :=
  [⟨⟨0, 0⟩, State.DEFAULT, none, none⟩, ⟨⟨1, 0⟩, State.DEFAULT, none, none⟩,
   ⟨⟨2, 0⟩, State.DEFAULT, none, none⟩, ⟨⟨3, 0⟩, State.DEFAULT, none, none⟩,
   ⟨⟨0, 1⟩, State.DEFAULT, none, none⟩, ⟨⟨1, 1⟩, State.DEFAULT, none, none⟩]

/-- Tile lookup over the concrete witness grid. -/
def wGetTile : Hex → Option GridTile := fun h => wTiles.find? (fun t => t.hex == h)

/-- A trivial concrete hex identifier assignment for witnesses that do
not rely on identifier injectivity. -/
def wId : Hex → Int := fun h => h.q + 10 * h.r

/-- C6: when the goal is already within range, `calculateEffectiveDistance`
returns movement 0, `canReach = true` and the direct hex distance,
uniformly in the tile lookup, the traversability predicate and the fuel
— the path search and the two collaborators are never consulted. -/
theorem claim_C6_fast_path_in_range (start goal : Hex) (range : Int)
    (hin : (start.distance goal : Int) ≤ range) :
    ∀ (getTile : Hex → Option GridTile) (canTraverse : GridTile → Bool)
      (cache : PathfindingCache) (getId : Hex → Int) (fuel : Nat),
      calculateEffectiveDistance start goal range getTile canTraverse false cache getId fuel =
        (⟨.fin 0, true, start.distance goal⟩, cache) := by
  intro getTile canTraverse cache getId fuel
  rw [calculateEffectiveDistance_false, if_pos hin]

/-- Witness for C6 at a concrete in-range pair. -/
theorem claim_C6_witness :
    ((Hex.distance ⟨0, 0⟩ ⟨1, 0⟩ : Int) ≤ 2) ∧
    calculateEffectiveDistance ⟨0, 0⟩ ⟨1, 0⟩ 2 wGetTile defaultCanTraverse false
        PathfindingCache.empty wId 50 =
      (⟨.fin 0, true, Hex.distance ⟨0, 0⟩ ⟨1, 0⟩⟩, PathfindingCache.empty) :=
  ⟨by decide, claim_C6_fast_path_in_range ⟨0, 0⟩ ⟨1, 0⟩ 2 (by decide) wGetTile
    defaultCanTraverse PathfindingCache.empty wId 50⟩

/-- C2: when the goal is out of range and a path is found, the result
has `canReach = true` and movement `max(0, (pathLength - 1) - range)`,
the step count of the found path minus the range, floored at zero. -/
theorem claim_C2_movement_from_path_length (start goal : Hex) (range : Int)
    (getTile : Hex → Option GridTile) (canTraverse : GridTile → Bool)
    (cache : PathfindingCache) (getId : Hex → Int) (fuel : Nat) (path : List Hex)
    (hout : range < (start.distance goal : Int))
    (hpath : findPath start goal getTile canTraverse fuel = some path) :
    (calculateEffectiveDistance start goal range getTile canTraverse false cache getId
        fuel).1 =
      ⟨.fin (((path.length : Int) - 1) - range).toNat, true, start.distance goal⟩ ∧
    ((((path.length : Int) - 1) - range).toNat : Int) =
      max 0 (((path.length : Int) - 1) - range) := by
  constructor
  · rw [calculateEffectiveDistance_false, if_neg (by omega), hpath]
  · omega

/-- Witness for C2 on the concrete grid: a 3-step path with range 1
costs 2 movement. -/
theorem claim_C2_witness :
    ((1 : Int) < (Hex.distance ⟨0, 0⟩ ⟨3, 0⟩ : Int)) ∧
    (findPath ⟨0, 0⟩ ⟨3, 0⟩ wGetTile defaultCanTraverse 50 =
      some [⟨0, 0⟩, ⟨1, 0⟩, ⟨2, 0⟩, ⟨3, 0⟩]) ∧
    (calculateEffectiveDistance ⟨0, 0⟩ ⟨3, 0⟩ 1 wGetTile defaultCanTraverse false
        PathfindingCache.empty wId 50).1 =
      ⟨.fin ((([⟨0, 0⟩, ⟨1, 0⟩, ⟨2, 0⟩, (⟨3, 0⟩ : Hex)].length : Int) - 1 - 1).toNat),
       true, Hex.distance ⟨0, 0⟩ ⟨3, 0⟩⟩ :=
  ⟨by decide, by decide,
   (claim_C2_movement_from_path_length ⟨0, 0⟩ ⟨3, 0⟩ 1 wGetTile defaultCanTraverse
     PathfindingCache.empty wId 50 [⟨0, 0⟩, ⟨1, 0⟩, ⟨2, 0⟩, ⟨3, 0⟩] (by decide)
     (by decide)).1⟩

/-- C8: when the goal is out of range and no path exists, the result is
the explicit unreachable marker (`canReach = false`, infinite movement,
direct distance still reported); the embedding is a total function, so
no failure is thrown. -/
theorem claim_C8_unreachable_marker (start goal : Hex) (range : Int)
    (getTile : Hex → Option GridTile) (canTraverse : GridTile → Bool)
    (cache : PathfindingCache) (getId : Hex → Int) (fuel : Nat)
    (hout : range < (start.distance goal : Int))
    (hnone : findPath start goal getTile canTraverse fuel = none) :
    (calculateEffectiveDistance start goal range getTile canTraverse false cache getId
        fuel).1 =
      ⟨.inf, false, start.distance goal⟩ := by
  rw [calculateEffectiveDistance_false, if_neg (by omega), hnone]

/-- Each of the six neighbors of a hex is at hex distance 1. -/
theorem Hex.distance_neighbor (h : Hex) (d : Fin 6) : h.distance (h.neighbor d) = 1 := by
  fin_cases d <;>
    simp [Hex.distance, Hex.neighbor, Hex.s, hexDirections] <;> omega

/-- Fold preservation: a predicate preserved by every step holds of the
fold result. -/
theorem foldl_preserve {α β : Type _} {P : β → Prop} (f : β → α → β) (l : List α)
    (init : β) (h0 : P init) (hstep : ∀ b a, a ∈ l → P b → P (f b a)) :
    P (l.foldl f init) := by
  induction l generalizing init with
  | nil => exact h0
  | cons x xs ih =>
    exact ih (f init x) (hstep init x (by simp) h0)
      (fun b a ha hb => hstep b a (by simp [ha]) hb)

/-- Members of the queue after a stable insertion are the new entry or
old members. -/
theorem PQ.mem_enqueue {α : Type} (q : PQ α) (x : α) (p : Nat) (e : α × Nat)
    (h : e ∈ PQ.enqueue q x p) : e = (x, p) ∨ e ∈ q := by
  match q with
  | [] => simpa [PQ.enqueue] using h
  | (y, py) :: rest =>
    simp only [PQ.enqueue] at h
    split at h
    · rcases List.mem_cons.mp h with h1 | h2
      · right
        simp [h1]
      · rcases PQ.mem_enqueue rest x p e h2 with h3 | h4
        · exact Or.inl h3
        · right
          simp [h4]
    · rcases List.mem_cons.mp h with h1 | h2
      · exact Or.inl h1
      · exact Or.inr h2

/-- Removing an entry only shrinks the membership of the queue. -/
theorem PQ.mem_removeFirstBy {α : Type} (q : PQ α) (f : α → Bool) (e : α × Nat)
    (h : e ∈ PQ.removeFirstBy q f) : e ∈ q := by
  match q with
  | [] => simpa [PQ.removeFirstBy] using h
  | hd :: rest =>
    simp only [PQ.removeFirstBy] at h
    split at h
    · exact List.mem_cons_of_mem _ h
    · rcases List.mem_cons.mp h with h1 | h2
      · exact h1 ▸ List.mem_cons_self _ _
      · exact List.mem_cons_of_mem _ (PQ.mem_removeFirstBy rest f e h2)

/-- Members of the queue after a priority update are the relocated
entry or old members. -/
theorem PQ.mem_updatePriority {α : Type} (q : PQ α) (x : α) (p : Nat)
    (eq : α → α → Bool) (e : α × Nat) (h : e ∈ PQ.updatePriority q x p eq) :
    e = (x, p) ∨ e ∈ q := by
  rcases PQ.mem_enqueue _ x p e h with h1 | h2
  · exact Or.inl h1
  · exact Or.inr (PQ.mem_removeFirstBy _ _ e h2)

/-- A successful dequeue splits the queue into its head entry and the
rest. -/
theorem PQ.dequeue_eq_some {α : Type} {q : PQ α} {x : α} {rest : PQ α}
    (h : PQ.dequeue q = some (x, rest)) : ∃ p, q = (x, p) :: rest := by
  match q with
  | [] => simp [PQ.dequeue] at h
  | e :: r =>
    simp only [PQ.dequeue, Option.some.injEq, Prod.mk.injEq] at h
    exact ⟨e.2, by cases e; simp_all⟩

/-- Every entry of the open set after one neighbor expansion is either
an old entry or a freshly built node: its hex is the processed
neighbor, its parent is the current node, its score is `g + h`, and the
neighbor passed the tile-existence and traversability checks. -/
theorem mem_processNeighbor_open (goal : Hex) (getTile : Hex → Option GridTile)
    (canTraverse : GridTile → Bool) (closed : List Hex) (current : PathNode)
    (acc : PQ PathNode × List (Hex × PathNode)) (d : Fin 6) (e : PathNode × Nat)
    (h : e ∈ (processNeighbor goal getTile canTraverse closed current acc d).1) :
    e ∈ acc.1 ∨
      ∃ g hc, e.1 = PathNode.mk (current.hex.neighbor d) g hc (g + hc) (some current) ∧
        ∃ tile, getTile (current.hex.neighbor d) = some tile ∧ canTraverse tile = true := by
  simp only [processNeighbor] at h
  split at h
  · exact Or.inl h
  · split at h
    · exact Or.inl h
    · rename_i tile htile
      split at h
      · exact Or.inl h
      · rename_i htr
        have htr2 : canTraverse tile = true := by
          revert htr
          cases canTraverse tile <;> simp
        split at h
        · rcases PQ.mem_enqueue _ _ _ e h with h1 | h2
          · exact Or.inr ⟨current.g + 1, (current.hex.neighbor d).distance goal,
              by rw [h1], tile, htile, htr2⟩
          · exact Or.inl h2
        · rename_i old _
          split at h
          · have h3 : e ∈ acc.1.updatePriority
                (PathNode.mk (current.hex.neighbor d) (current.g + 1) old.hcost
                  (current.g + 1 + old.hcost) (some current))
                (current.g + 1 + old.hcost) (fun a b => a.hex == b.hex) := h
            rcases PQ.mem_updatePriority _ _ _ _ e h3 with h1 | h2
            · exact Or.inr ⟨current.g + 1, old.hcost, by rw [h1], tile, htile, htr2⟩
            · exact Or.inl h2
          · exact Or.inl h

/-- Every entry of the open set after the full six-direction expansion
is an old entry or a freshly built node pointing back to the current
node through some traversable neighbor. -/
theorem mem_expand_open (goal : Hex) (getTile : Hex → Option GridTile)
    (canTraverse : GridTile → Bool) (closed : List Hex) (current : PathNode)
    (rest : PQ PathNode) (nm : List (Hex × PathNode)) (e : PathNode × Nat)
    (h : e ∈ ((List.finRange 6).foldl
      (processNeighbor goal getTile canTraverse closed current) (rest, nm)).1) :
    e ∈ rest ∨
      ∃ d g hc, e.1 = PathNode.mk (current.hex.neighbor d) g hc (g + hc) (some current) ∧
        ∃ tile, getTile (current.hex.neighbor d) = some tile ∧ canTraverse tile = true := by
  have H := foldl_preserve
    (P := fun (acc : PQ PathNode × List (Hex × PathNode)) => ∀ e2 ∈ acc.1, e2 ∈ rest ∨
      ∃ d g hc, e2.1 = PathNode.mk (current.hex.neighbor d) g hc (g + hc) (some current) ∧
        ∃ tile, getTile (current.hex.neighbor d) = some tile ∧ canTraverse tile = true)
    (processNeighbor goal getTile canTraverse closed current) (List.finRange 6)
    (rest, nm) (fun e2 he2 => Or.inl he2) ?step
  case step =>
    intro acc d _ hacc e2 he2
    rcases mem_processNeighbor_open goal getTile canTraverse closed current acc d e2 he2
      with h1 | ⟨g, hc, hnode, tile, htile, htr⟩
    · exact hacc e2 h1
    · exact Or.inr ⟨d, g, hc, hnode, tile, htile, htr⟩
  exact H e h

/-- Unfolding of the A* loop when the dequeue is empty. -/
theorem aStarLoop_succ_none (goal : Hex) (getTile : Hex → Option GridTile)
    (canTraverse : GridTile → Bool) (n : Nat) (st : AStarState)
    (hdq : st.openq.dequeue = none) :
    aStarLoop goal getTile canTraverse (n + 1) st = none := by
  simp only [aStarLoop]
  rw [hdq]

/-- Unfolding of the A* loop when a node is dequeued. -/
theorem aStarLoop_succ_some (goal : Hex) (getTile : Hex → Option GridTile)
    (canTraverse : GridTile → Bool) (n : Nat) (st : AStarState) (current : PathNode)
    (rest : PQ PathNode) (hdq : st.openq.dequeue = some (current, rest)) :
    aStarLoop goal getTile canTraverse (n + 1) st =
      if current.hex = goal then some (reconstruct current)
      else aStarLoop goal getTile canTraverse n
        (expandState goal getTile canTraverse st current rest) := by
  simp only [aStarLoop]
  rw [hdq]

/-- When the goal cell has no tile or a rejected tile, no node with the
goal hex ever enters the open set, so the loop never succeeds. -/
theorem aStarLoop_no_goal (goal : Hex) (getTile : Hex → Option GridTile)
    (canTraverse : GridTile → Bool)
    (hgoal : ∀ tile, getTile goal = some tile → canTraverse tile = false) :
    ∀ (fuel : Nat) (st : AStarState), (∀ e ∈ st.openq, e.1.hex ≠ goal) →
      aStarLoop goal getTile canTraverse fuel st = none := by
  intro fuel
  induction fuel with
  | zero => intro st _; rfl
  | succ n ih =>
    intro st hinv
    cases hdq : st.openq.dequeue with
    | none => exact aStarLoop_succ_none goal getTile canTraverse n st hdq
    | some pr =>
      obtain ⟨current, rest⟩ := pr
      obtain ⟨p, hq⟩ := PQ.dequeue_eq_some hdq
      have hcur : current.hex ≠ goal :=
        hinv (current, p) (by rw [hq]; exact List.mem_cons_self _ _)
      rw [aStarLoop_succ_some goal getTile canTraverse n st current rest hdq, if_neg hcur]
      apply ih
      intro e he
      rcases mem_expand_open goal getTile canTraverse (st.closed ++ [current.hex]) current
        rest st.nodeMap e he with h1 | ⟨d, g, hc, hnode, tile, htile, htr⟩
      · exact hinv e (by rw [hq]; exact List.mem_cons_of_mem _ h1)
      · have hhex2 : e.1.hex = current.hex.neighbor d := by
          rw [hnode]
          rfl
        intro hhex
        rw [hhex2] at hhex
        rw [hhex] at htile
        have hfalse := hgoal tile htile
        simp [htr] at hfalse

/-- A call with equal start and goal returns the one-element path at
the very first dequeue, whatever the lookup and predicate. -/
theorem findPath_self (s : Hex) (getTile : Hex → Option GridTile)
    (canTraverse : GridTile → Bool) (fuel : Nat) :
    findPath s s getTile canTraverse (fuel + 1) = some [s] := by
  simp [findPath, aStarLoop, PQ.dequeue, PathNode.hex, reconstruct]

/-- C9: traversability is checked only when a cell is entered as a
neighbor, never for the start cell.  First part: `findPath(s, s)` is
`[s]` for every lookup and predicate (so the lookup is never
consulted).  Second part: for distinct endpoints, if the goal has no
tile or its tile is rejected, every run returns absent. -/
theorem claim_C9_start_unchecked_goal_checked :
    (∀ (s : Hex) (getTile : Hex → Option GridTile) (canTraverse : GridTile → Bool)
       (fuel : Nat), findPath s s getTile canTraverse (fuel + 1) = some [s]) ∧
    (∀ (s g : Hex) (getTile : Hex → Option GridTile) (canTraverse : GridTile → Bool)
       (fuel : Nat), s ≠ g →
       (∀ tile, getTile g = some tile → canTraverse tile = false) →
       findPath s g getTile canTraverse fuel = none) := by
  constructor
  · exact findPath_self
  · intro s g getTile canTraverse fuel hne hgoal
    apply aStarLoop_no_goal g getTile canTraverse hgoal
    intro e he
    simp only [List.mem_singleton] at he
    rw [he]
    simpa [PathNode.hex] using hne

/-- The path-shape invariant of the A* search tree: the reconstructed
sequence of a node starts at the search start, ends at the node's own
hex, and is a chain of adjacent hexes. -/
def goodChain (start : Hex) (n : PathNode) : Prop :=
  (reconstruct n).head? = some start ∧ (reconstruct n).getLast? = some n.hex ∧
  (reconstruct n).Chain' (fun a b => a.distance b = 1)

/-- A reconstructed path always contains at least the node's hex. -/
theorem reconstruct_ne_nil (n : PathNode) : reconstruct n ≠ [] := by
  match n with
  | .mk hex g hc fc none => simp [reconstruct]
  | .mk hex g hc fc (some p) => simp [reconstruct]

/-- A freshly built node whose hex is adjacent to its parent's hex
inherits the path-shape invariant. -/
theorem goodChain_new (start : Hex) (current : PathNode) (nb : Hex) (g hc : Nat)
    (hd : current.hex.distance nb = 1) (hgc : goodChain start current) :
    goodChain start (PathNode.mk nb g hc (g + hc) (some current)) := by
  obtain ⟨h1, h2, h3⟩ := hgc
  have hrec : reconstruct (PathNode.mk nb g hc (g + hc) (some current)) =
      reconstruct current ++ [nb] := rfl
  refine ⟨?_, ?_, ?_⟩
  · rw [hrec]
    cases hl : reconstruct current with
    | nil => exact absurd hl (reconstruct_ne_nil current)
    | cons a t =>
      rw [hl] at h1
      simpa using h1
  · rw [hrec]
    simp [List.getLast?_concat, PathNode.hex]
  · rw [hrec, List.chain'_append]
    refine ⟨h3, List.chain'_singleton nb, ?_⟩
    intro x hx y hy
    rw [h2] at hx
    simp only [Option.mem_def, Option.some.injEq] at hx
    simp only [List.head?_cons, Option.mem_def, Option.some.injEq] at hy
    rw [← hx, ← hy]
    exact hd

/-- Any successful run of the A* loop from a state whose open set
satisfies the path-shape invariant yields a sequence from the start to
the goal made of adjacent hexes. -/
theorem aStarLoop_path_props (start goal : Hex) (getTile : Hex → Option GridTile)
    (canTraverse : GridTile → Bool) :
    ∀ (fuel : Nat) (st : AStarState) (path : List Hex),
      (∀ e ∈ st.openq, goodChain start e.1) →
      aStarLoop goal getTile canTraverse fuel st = some path →
      path.head? = some start ∧ path.getLast? = some goal ∧
      path.Chain' (fun a b => a.distance b = 1) ∧ 1 ≤ path.length := by
  intro fuel
  induction fuel with
  | zero =>
    intro st path _ hres
    exact absurd hres (by simp [aStarLoop])
  | succ n ih =>
    intro st path hinv hres
    cases hdq : st.openq.dequeue with
    | none =>
      rw [aStarLoop_succ_none goal getTile canTraverse n st hdq] at hres
      exact absurd hres (by simp)
    | some pr =>
      obtain ⟨current, rest⟩ := pr
      obtain ⟨p, hq⟩ := PQ.dequeue_eq_some hdq
      have hcur : goodChain start current :=
        hinv (current, p) (by rw [hq]; exact List.mem_cons_self _ _)
      rw [aStarLoop_succ_some goal getTile canTraverse n st current rest hdq] at hres
      by_cases hg : current.hex = goal
      · rw [if_pos hg] at hres
        have hpath : reconstruct current = path := by
          injection hres
        obtain ⟨h1, h2, h3⟩ := hcur
        rw [hpath] at h1 h2 h3
        refine ⟨h1, by rw [← hg]; exact h2, h3, ?_⟩
        have hne : path ≠ [] := by
          rw [← hpath]
          exact reconstruct_ne_nil current
        cases path with
        | nil => exact absurd rfl hne
        | cons a t => simp
      · rw [if_neg hg] at hres
        apply ih _ path _ hres
        intro e he
        rcases mem_expand_open goal getTile canTraverse (st.closed ++ [current.hex]) current
          rest st.nodeMap e he with h1 | ⟨d, g, hc, hnode, tile, htile, htr⟩
        · exact hinv e (by rw [hq]; exact List.mem_cons_of_mem _ h1)
        · rw [hnode]
          exact goodChain_new start current _ g hc (Hex.distance_neighbor current.hex d) hcur

/-- C1: every sequence returned by `findPath` starts at the start hex,
ends at the goal hex, has every consecutive pair at hex distance 1, has
length at least 1, and has length exactly 1 when start equals goal. -/
theorem claim_C1_findPath_path_shape (start goal : Hex)
    (getTile : Hex → Option GridTile) (canTraverse : GridTile → Bool)
    (fuel : Nat) (path : List Hex)
    (hres : findPath start goal getTile canTraverse fuel = some path) :
    path.head? = some start ∧ path.getLast? = some goal ∧
    path.Chain' (fun a b => a.distance b = 1) ∧ 1 ≤ path.length ∧
    (start = goal → path.length = 1) := by
  have hres2 : aStarLoop goal getTile canTraverse fuel
      ⟨[(PathNode.mk start 0 (start.distance goal) (start.distance goal) none,
         start.distance goal)], [],
       [(start, PathNode.mk start 0 (start.distance goal) (start.distance goal) none)]⟩ =
      some path := hres
  have hprops := aStarLoop_path_props start goal getTile canTraverse fuel _ path ?inv hres2
  case inv =>
    intro e he
    simp only [List.mem_singleton] at he
    rw [he]
    exact ⟨rfl, rfl, List.chain'_singleton start⟩
  refine ⟨hprops.1, hprops.2.1, hprops.2.2.1, hprops.2.2.2, ?_⟩
  intro heq
  subst heq
  cases fuel with
  | zero => simp [findPath, aStarLoop] at hres
  | succ n =>
    rw [findPath_self start getTile canTraverse n] at hres
    have hp : [start] = path := by injection hres
    rw [← hp]
    rfl

/-- Witness for C1: the concrete 4-hex path on the witness grid. -/
theorem claim_C1_witness :
    (findPath ⟨0, 0⟩ ⟨3, 0⟩ wGetTile defaultCanTraverse 50 =
      some [⟨0, 0⟩, ⟨1, 0⟩, ⟨2, 0⟩, ⟨3, 0⟩]) ∧
    ([(⟨0, 0⟩ : Hex), ⟨1, 0⟩, ⟨2, 0⟩, ⟨3, 0⟩].head? = some ⟨0, 0⟩ ∧
     [(⟨0, 0⟩ : Hex), ⟨1, 0⟩, ⟨2, 0⟩, ⟨3, 0⟩].getLast? = some ⟨3, 0⟩ ∧
     [(⟨0, 0⟩ : Hex), ⟨1, 0⟩, ⟨2, 0⟩, ⟨3, 0⟩].Chain' (fun a b => a.distance b = 1) ∧
     1 ≤ [(⟨0, 0⟩ : Hex), ⟨1, 0⟩, ⟨2, 0⟩, ⟨3, 0⟩].length ∧
     ((⟨0, 0⟩ : Hex) = ⟨3, 0⟩ → [(⟨0, 0⟩ : Hex), ⟨1, 0⟩, ⟨2, 0⟩, ⟨3, 0⟩].length = 1)) :=
  ⟨by decide,
   claim_C1_findPath_path_shape ⟨0, 0⟩ ⟨3, 0⟩ wGetTile defaultCanTraverse 50
     [⟨0, 0⟩, ⟨1, 0⟩, ⟨2, 0⟩, ⟨3, 0⟩] (by decide)⟩

/-- A variant of the witness grid whose hex (1, 0) is blocked. -/
def wTilesBlocked : List GridTile :=
  [⟨⟨0, 0⟩, State.DEFAULT, none, none⟩, ⟨⟨1, 0⟩, State.BLOCKED, none, none⟩,
   ⟨⟨2, 0⟩, State.DEFAULT, none, none⟩, ⟨⟨0, 1⟩, State.DEFAULT, none, none⟩,
   ⟨⟨1, 1⟩, State.DEFAULT, none, none⟩]

/-- Tile lookup over the blocked witness grid. -/
def wGetTileBlocked : Hex → Option GridTile :=
  fun h => wTilesBlocked.find? (fun t => t.hex == h)

/-- Witness for C9: the self-path case on the witness grid, and a
distinct pair whose goal tile is blocked. -/
theorem claim_C9_witness :
    (findPath ⟨0, 0⟩ ⟨0, 0⟩ wGetTile defaultCanTraverse 50 = some [⟨0, 0⟩]) ∧
    (findPath ⟨0, 0⟩ ⟨1, 0⟩ wGetTileBlocked defaultCanTraverse 50 = none) :=
  ⟨claim_C9_start_unchecked_goal_checked.1 ⟨0, 0⟩ wGetTile defaultCanTraverse 49,
   claim_C9_start_unchecked_goal_checked.2 ⟨0, 0⟩ ⟨1, 0⟩ wGetTileBlocked
     defaultCanTraverse 50 (by decide)
     (by
       intro tile ht
       have h2 : some (⟨⟨1, 0⟩, State.BLOCKED, none, none⟩ : GridTile) = some tile := ht
       injection h2 with h3
       rw [← h3]
       rfl)⟩

/-- Witness for C8: the goal is off the witness grid, so no path
exists. -/
theorem claim_C8_witness :
    ((1 : Int) < (Hex.distance ⟨0, 0⟩ ⟨5, 5⟩ : Int)) ∧
    (findPath ⟨0, 0⟩ ⟨5, 5⟩ wGetTile defaultCanTraverse 50 = none) ∧
    (calculateEffectiveDistance ⟨0, 0⟩ ⟨5, 5⟩ 1 wGetTile defaultCanTraverse false
        PathfindingCache.empty wId 50).1 =
      ⟨.inf, false, Hex.distance ⟨0, 0⟩ ⟨5, 5⟩⟩ :=
  ⟨by decide, by decide,
   claim_C8_unreachable_marker ⟨0, 0⟩ ⟨5, 5⟩ 1 wGetTile defaultCanTraverse
     PathfindingCache.empty wId 50 (by decide) (by decide)⟩

/-- With caching disabled, `calculateEffectiveDistance` returns the
cache unchanged. -/
theorem calcED_false_cache (start goal : Hex) (range : Int)
    (getTile : Hex → Option GridTile) (canTraverse : GridTile → Bool)
    (cache : PathfindingCache) (getId : Hex → Int) (fuel : Nat) :
    (calculateEffectiveDistance start goal range getTile canTraverse false cache getId
      fuel).2 = cache := by
  rw [calculateEffectiveDistance_false]
  split
  · rfl
  · split <;> rfl

/-- The JavaScript strict order on movement distances is irreflexive. -/
theorem movLt_irrefl (d : MovementDist) : movLt d d = false := by
  cases d <;> simp [movLt]

/-- C5: in `findClosestTarget`, between two equally distant candidates
of which exactly one is vertically aligned with the source, the aligned
one wins — in the ranged candidate-list path (first part) and in the
melee running-best path (second part), for every hex identifier
assignment. -/
theorem claim_C5_vertical_alignment_tiebreak :
    (∀ (sourceTile t1 t2 : GridTile) (sourceRange : Int)
       (getTile : Hex → Option GridTile) (canTraverse : GridTile → Bool)
       (gridPreset : GridPreset) (cache : PathfindingCache) (getId : Hex → Int)
       (fuel : Nat),
      1 < sourceRange →
      (calculateRangedMovementDistance sourceTile.hex [t1.hex, t2.hex] sourceRange
        getTile canTraverse).canReach = true →
      t1.hex ∈ (calculateRangedMovementDistance sourceTile.hex [t1.hex, t2.hex]
        sourceRange getTile canTraverse).reachableTargets →
      t2.hex ∈ (calculateRangedMovementDistance sourceTile.hex [t1.hex, t2.hex]
        sourceRange getTile canTraverse).reachableTargets →
      isVerticallyAligned sourceTile.hex t1.hex ≠ isVerticallyAligned sourceTile.hex t2.hex →
      (findClosestTarget sourceTile [t1, t2] sourceRange getTile canTraverse gridPreset
        false cache getId fuel).1 =
        some ⟨getId (if isVerticallyAligned sourceTile.hex t1.hex then t1.hex else t2.hex),
          (calculateRangedMovementDistance sourceTile.hex [t1.hex, t2.hex] sourceRange
            getTile canTraverse).movementDistance⟩) ∧
    (∀ (sourceTile t1 t2 : GridTile) (getTile : Hex → Option GridTile)
       (canTraverse : GridTile → Bool) (gridPreset : GridPreset)
       (cache : PathfindingCache) (getId : Hex → Int) (fuel : Nat),
      (calculateEffectiveDistance sourceTile.hex t1.hex 1 getTile
        (overrideTraverse canTraverse t1) false cache getId fuel).1.canReach = true →
      (calculateEffectiveDistance sourceTile.hex t2.hex 1 getTile
        (overrideTraverse canTraverse t2) false cache getId fuel).1.canReach = true →
      (calculateEffectiveDistance sourceTile.hex t2.hex 1 getTile
        (overrideTraverse canTraverse t2) false cache getId fuel).1.movementDistance =
      (calculateEffectiveDistance sourceTile.hex t1.hex 1 getTile
        (overrideTraverse canTraverse t1) false cache getId fuel).1.movementDistance →
      isVerticallyAligned sourceTile.hex t1.hex ≠ isVerticallyAligned sourceTile.hex t2.hex →
      (findClosestTarget sourceTile [t1, t2] 1 getTile canTraverse gridPreset
        false cache getId fuel).1 =
        some ⟨getId (if isVerticallyAligned sourceTile.hex t1.hex then t1.hex else t2.hex),
          (calculateEffectiveDistance sourceTile.hex t1.hex 1 getTile
            (overrideTraverse canTraverse t1) false cache getId fuel).1.movementDistance⟩) := by
  constructor
  · intro sourceTile t1 t2 sourceRange getTile canTraverse gridPreset cache getId fuel
      hlt hcr hmem1 hmem2 hne
    have hnil : (calculateRangedMovementDistance sourceTile.hex [t1.hex, t2.hex]
        sourceRange getTile canTraverse).reachableTargets ≠ [] :=
      List.ne_nil_of_mem hmem1
    simp only [findClosestTarget, List.map_cons, List.map_nil]
    rw [if_neg (by simp), if_pos hlt]
    rw [hcr]
    simp only [Bool.not_true, Bool.false_or, if_neg hnil]
    have hany1 : (calculateRangedMovementDistance sourceTile.hex [t1.hex, t2.hex]
        sourceRange getTile canTraverse).reachableTargets.any (fun rh => rh == t1.hex) =
        true :=
      List.any_eq_true.mpr ⟨t1.hex, hmem1, by simp⟩
    have hany2 : (calculateRangedMovementDistance sourceTile.hex [t1.hex, t2.hex]
        sourceRange getTile canTraverse).reachableTargets.any (fun rh => rh == t2.hex) =
        true :=
      List.any_eq_true.mpr ⟨t2.hex, hmem2, by simp⟩
    rw [List.filter_cons_of_pos (by simpa using hany1),
      List.filter_cons_of_pos (by simpa using hany2), List.filter_nil]
    simp only [List.foldl_cons, List.foldl_nil, tieBreakPick]
    cases hb1 : isVerticallyAligned sourceTile.hex t1.hex <;>
      cases hb2 : isVerticallyAligned sourceTile.hex t2.hex <;>
      simp_all
  · intro sourceTile t1 t2 getTile canTraverse gridPreset cache getId fuel
      hcr1 hcr2 heq hne
    have hc1 := calcED_false_cache sourceTile.hex t1.hex 1 getTile
      (overrideTraverse canTraverse t1) cache getId fuel
    simp only [findClosestTarget]
    rw [if_neg (by simp), if_neg (by omega)]
    simp only [List.foldl_cons, List.foldl_nil, meleeLoopStep, hc1]
    rw [show meleeUpdate sourceTile [t1, t2] getId none t1
        (calculateEffectiveDistance sourceTile.hex t1.hex 1 getTile
          (overrideTraverse canTraverse t1) false cache getId fuel).1 =
        some ⟨getId t1.hex, (calculateEffectiveDistance sourceTile.hex t1.hex 1 getTile
          (overrideTraverse canTraverse t1) false cache getId fuel).1.movementDistance⟩
      from by
        simp only [meleeUpdate, hcr1, Bool.not_true, Bool.false_eq_true, if_false]]
    simp only [meleeUpdate, hcr2, Bool.not_true, Bool.false_eq_true, if_false]
    rw [heq, movLt_irrefl]
    simp only [Bool.false_eq_true, if_false, if_pos rfl]
    have hfind : List.find? (fun t => getId t.hex == getId t1.hex) [t1, t2] = some t1 := by
      simp [List.find?]
    rw [hfind]
    cases hb1 : isVerticallyAligned sourceTile.hex t1.hex <;>
      cases hb2 : isVerticallyAligned sourceTile.hex t2.hex <;>
      simp_all

/-- Six open tiles around the origin for the ranged C5 witness. -/
def wC5RangedTiles : List GridTile :=
  [⟨⟨1, 0⟩, State.DEFAULT, none, none⟩, ⟨⟨1, -1⟩, State.DEFAULT, none, none⟩,
   ⟨⟨0, -1⟩, State.DEFAULT, none, none⟩, ⟨⟨-1, 0⟩, State.DEFAULT, none, none⟩,
   ⟨⟨-1, 1⟩, State.DEFAULT, none, none⟩, ⟨⟨0, 1⟩, State.DEFAULT, none, none⟩]

/-- Tile lookup for the ranged C5 witness. -/
def wC5RangedGetTile : Hex → Option GridTile :=
  fun h => wC5RangedTiles.find? (fun t => t.hex == h)

/-- The source tile of the C5 witnesses. -/
def wC5Src : GridTile := ⟨⟨0, 0⟩, State.OCCUPIED_ALLY, some Team.ALLY, none⟩

/-- The vertically aligned ranged candidate. -/
def wC5T1 : GridTile := ⟨⟨0, 3⟩, State.OCCUPIED_ENEMY, some Team.ENEMY, none⟩

/-- The non-aligned ranged candidate. -/
def wC5T2 : GridTile := ⟨⟨3, 0⟩, State.OCCUPIED_ENEMY, some Team.ENEMY, none⟩

/-- Open tiles for the melee C5 witness. -/
def wC5MeleeTiles : List GridTile :=
  [⟨⟨0, 1⟩, State.DEFAULT, none, none⟩, ⟨⟨1, 0⟩, State.DEFAULT, none, none⟩,
   ⟨⟨1, 1⟩, State.DEFAULT, none, none⟩, ⟨⟨0, 2⟩, State.OCCUPIED_ENEMY, some Team.ENEMY, none⟩,
   ⟨⟨2, 0⟩, State.OCCUPIED_ENEMY, some Team.ENEMY, none⟩]

/-- Tile lookup for the melee C5 witness. -/
def wC5MeleeGetTile : Hex → Option GridTile :=
  fun h => wC5MeleeTiles.find? (fun t => t.hex == h)

/-- The vertically aligned melee candidate. -/
def wC5M1 : GridTile := ⟨⟨0, 2⟩, State.OCCUPIED_ENEMY, some Team.ENEMY, none⟩

/-- The non-aligned melee candidate. -/
def wC5M2 : GridTile := ⟨⟨2, 0⟩, State.OCCUPIED_ENEMY, some Team.ENEMY, none⟩

/-- Witness for C5: both tie-break paths on concrete equidistant
candidate pairs with exactly one aligned candidate. -/
theorem claim_C5_witness :
    ((findClosestTarget wC5Src [wC5T1, wC5T2] 2 wC5RangedGetTile defaultCanTraverse
        FULL_GRID false PathfindingCache.empty wId 50).1 =
      some ⟨wId (if isVerticallyAligned wC5Src.hex wC5T1.hex then wC5T1.hex else wC5T2.hex),
        (calculateRangedMovementDistance wC5Src.hex [wC5T1.hex, wC5T2.hex] 2
          wC5RangedGetTile defaultCanTraverse).movementDistance⟩) ∧
    ((findClosestTarget wC5Src [wC5M1, wC5M2] 1 wC5MeleeGetTile defaultCanTraverse
        FULL_GRID false PathfindingCache.empty wId 50).1 =
      some ⟨wId (if isVerticallyAligned wC5Src.hex wC5M1.hex then wC5M1.hex else wC5M2.hex),
        (calculateEffectiveDistance wC5Src.hex wC5M1.hex 1 wC5MeleeGetTile
          (overrideTraverse defaultCanTraverse wC5M1) false PathfindingCache.empty wId
          50).1.movementDistance⟩) :=
  ⟨claim_C5_vertical_alignment_tiebreak.1 wC5Src wC5T1 wC5T2 2 wC5RangedGetTile
     defaultCanTraverse FULL_GRID PathfindingCache.empty wId 50 (by decide) (by decide)
     (by decide) (by decide) (by decide),
   claim_C5_vertical_alignment_tiebreak.2 wC5Src wC5M1 wC5M2 wC5MeleeGetTile
     defaultCanTraverse FULL_GRID PathfindingCache.empty wId 50 (by decide) (by decide)
     (by decide) (by decide)⟩

/-- The tie-break comparison always returns one of its two arguments. -/
theorem tieBreakPick_mem (getId : Hex → Int) (sourceHex : Hex) (best current : GridTile) :
    tieBreakPick getId sourceHex best current = best ∨
    tieBreakPick getId sourceHex best current = current := by
  simp only [tieBreakPick]
  split
  · exact Or.inr rfl
  · split
    · exact Or.inl rfl
    · split
      · split
        · exact Or.inr rfl
        · exact Or.inl rfl
      · split
        · split
          · exact Or.inr rfl
          · exact Or.inl rfl
        · exact Or.inl rfl

/-- The candidate-list tie-break fold returns a member of the candidate
list. -/
theorem foldl_tieBreakPick_mem (getId : Hex → Int) (sourceHex : Hex) (c0 : GridTile)
    (rest : List GridTile) :
    rest.foldl (tieBreakPick getId sourceHex) c0 ∈ c0 :: rest := by
  induction rest generalizing c0 with
  | nil => simp
  | cons x xs ih =>
    have h := ih (tieBreakPick getId sourceHex c0 x)
    rcases List.mem_cons.mp h with h1 | h2
    · rcases tieBreakPick_mem getId sourceHex c0 x with hb | hc
      · rw [List.foldl_cons, h1, hb]
        exact List.mem_cons_self _ _
      · rw [List.foldl_cons, h1, hc]
        exact List.mem_cons_of_mem _ (List.mem_cons_self _ _)
    · rw [List.foldl_cons]
      exact List.mem_cons_of_mem _ (List.mem_cons_of_mem _ h2)

/-- The pure melee update either keeps the running best or installs
the current target's hex id. -/
theorem meleeUpdate_cases (sourceTile : GridTile) (targetTiles : List GridTile)
    (getId : Hex → Int) (closest : Option TargetResult) (targetTile : GridTile)
    (e : DistanceResult) :
    meleeUpdate sourceTile targetTiles getId closest targetTile e = closest ∨
    ∃ d, meleeUpdate sourceTile targetTiles getId closest targetTile e =
      some ⟨getId targetTile.hex, d⟩ := by
  simp only [meleeUpdate]
  split
  · exact Or.inl rfl
  · split
    · exact Or.inr ⟨_, rfl⟩
    · split
      · exact Or.inr ⟨_, rfl⟩
      · split
        · split
          · exact Or.inl rfl
          · split_ifs <;>
              first
                | exact Or.inl rfl
                | exact Or.inr ⟨_, rfl⟩
        · exact Or.inl rfl

/-- One melee step either keeps the running best or installs the
current target's hex id. -/
theorem meleeLoopStep_fst (sourceTile : GridTile) (targetTiles : List GridTile)
    (sourceRange : Int) (getTile : Hex → Option GridTile)
    (canTraverse : GridTile → Bool) (cachingEnabled : Bool) (getId : Hex → Int)
    (fuel : Nat) (acc : Option TargetResult × PathfindingCache) (targetTile : GridTile) :
    (meleeLoopStep sourceTile targetTiles sourceRange getTile canTraverse cachingEnabled
      getId fuel acc targetTile).1 = acc.1 ∨
    ∃ d, (meleeLoopStep sourceTile targetTiles sourceRange getTile canTraverse
      cachingEnabled getId fuel acc targetTile).1 = some ⟨getId targetTile.hex, d⟩ := by
  simp only [meleeLoopStep]
  exact meleeUpdate_cases sourceTile targetTiles getId acc.1 targetTile _

/-- A target selected by `findClosestTarget` always carries the hex id
of some tile of the target list. -/
theorem findClosestTarget_provenance (sourceTile : GridTile)
    (targetTiles : List GridTile) (sourceRange : Int)
    (getTile : Hex → Option GridTile) (canTraverse : GridTile → Bool)
    (gridPreset : GridPreset) (cachingEnabled : Bool) (cache : PathfindingCache)
    (getId : Hex → Int) (fuel : Nat) (tr : TargetResult)
    (h : (findClosestTarget sourceTile targetTiles sourceRange getTile canTraverse
      gridPreset cachingEnabled cache getId fuel).1 = some tr) :
    ∃ t ∈ targetTiles, tr.hexId = getId t.hex := by
  simp only [findClosestTarget] at h
  split at h
  · simp at h
  · split at h
    · split at h
      · simp at h
      · split at h
        · simp at h
        · rename_i c0 rest hcand
          simp only [Option.some.injEq] at h
          have hbest := foldl_tieBreakPick_mem getId sourceTile.hex c0 rest
          rw [← hcand] at hbest
          refine ⟨rest.foldl (tieBreakPick getId sourceTile.hex) c0,
            List.mem_of_mem_filter hbest, ?_⟩
          rw [← h]
    · have H := foldl_preserve
        (P := fun (acc : Option TargetResult × PathfindingCache) =>
          ∀ tr2, acc.1 = some tr2 → ∃ t ∈ targetTiles, tr2.hexId = getId t.hex)
        (meleeLoopStep sourceTile targetTiles sourceRange getTile canTraverse
          cachingEnabled getId fuel)
        targetTiles (none, cache) (fun tr2 h2 => by simp at h2) ?step
      case step =>
        intro acc targetTile hmem hacc tr2 h2
        rcases meleeLoopStep_fst sourceTile targetTiles sourceRange getTile canTraverse
          cachingEnabled getId fuel acc targetTile with h3 | ⟨d, h3⟩
        · exact hacc tr2 (by rw [← h3, h2])
        · rw [h3] at h2
          simp only [Option.some.injEq] at h2
          exact ⟨targetTile, hmem, by rw [← h2]⟩
      exact H tr h

/-- Entries after a `Map.set` are old entries or the written binding. -/
theorem mem_mapSet (m : List (Int × TargetInfo)) (k : Int) (v : TargetInfo)
    (e : Int × TargetInfo) (h : e ∈ mapSet m k v) : e ∈ m ∨ e = (k, v) := by
  unfold mapSet at h
  split at h
  · rcases List.mem_map.mp h with ⟨e0, he0, heq⟩
    by_cases hk : (e0.1 == k) = true
    · rw [if_pos hk] at heq
      exact Or.inr heq.symm
    · rw [if_neg hk] at heq
      rw [← heq]
      exact Or.inl he0
  · rcases List.mem_append.mp h with h1 | h2
    · exact Or.inl h1
    · simp only [List.mem_singleton] at h2
      exact Or.inr h2

/-- With caching disabled, `getClosestEnemyMap` is the plain per-ally
fold. -/
theorem getClosestEnemyMap_false (tiles : List GridTile)
    (ranges : List (String × Int)) (gridPreset : GridPreset)
    (getTile : Option (Hex → Option GridTile)) (cache : PathfindingCache)
    (getId : Hex → Int) (fuel : Nat) :
    getClosestEnemyMap tiles ranges gridPreset false getTile cache getId fuel =
      (tiles.filter (fun tile => tile.team == some Team.ALLY)).foldl
        (enemyMapStep (tiles.filter (fun tile => tile.team == some Team.ENEMY)) ranges
          gridPreset false (tileHelper getTile tiles) getId fuel) ([], cache) := by
  unfold getClosestEnemyMap
  simp only [Bool.false_eq_true, if_false]

/-- With caching disabled, `getClosestAllyMap` is the plain per-enemy
fold. -/
theorem getClosestAllyMap_false (tiles : List GridTile)
    (ranges : List (String × Int)) (gridPreset : GridPreset)
    (getTile : Option (Hex → Option GridTile)) (cache : PathfindingCache)
    (getId : Hex → Int) (fuel : Nat) :
    getClosestAllyMap tiles ranges gridPreset false getTile cache getId fuel =
      (tiles.filter (fun tile => tile.team == some Team.ENEMY)).foldl
        (allyMapStep (tiles.filter (fun tile => tile.team == some Team.ALLY)) ranges
          gridPreset false (tileHelper getTile tiles) getId fuel) ([], cache) := by
  unfold getClosestAllyMap
  simp only [Bool.false_eq_true, if_false]

/-- C10: every key of the closest-enemy map is an ally tile's hex id
and every stored `enemyHexId` is an enemy tile's hex id; dually, every
key of the closest-ally map is an enemy tile's hex id and every stored
`allyHexId` is an ally tile's hex id. -/
theorem claim_C10_map_key_value_teams (tiles : List GridTile)
    (ranges : List (String × Int)) (gridPreset : GridPreset)
    (getTile : Option (Hex → Option GridTile)) (cache : PathfindingCache)
    (getId : Hex → Int) (fuel : Nat) :
    (∀ k info, (k, info) ∈ (getClosestEnemyMap tiles ranges gridPreset false getTile
        cache getId fuel).1 →
      (∃ t ∈ tiles, t.team = some Team.ALLY ∧ k = getId t.hex) ∧
      (∃ e ∈ tiles, e.team = some Team.ENEMY ∧ info.enemyHexId = some (getId e.hex))) ∧
    (∀ k info, (k, info) ∈ (getClosestAllyMap tiles ranges gridPreset false getTile
        cache getId fuel).1 →
      (∃ t ∈ tiles, t.team = some Team.ENEMY ∧ k = getId t.hex) ∧
      (∃ a ∈ tiles, a.team = some Team.ALLY ∧ info.allyHexId = some (getId a.hex))) := by
  constructor
  · intro k info hk
    rw [getClosestEnemyMap_false] at hk
    revert hk
    have H := foldl_preserve
      (P := fun (acc : List (Int × TargetInfo) × PathfindingCache) =>
        ∀ k2 info2, (k2, info2) ∈ acc.1 →
          (∃ t ∈ tiles, t.team = some Team.ALLY ∧ k2 = getId t.hex) ∧
          (∃ e ∈ tiles, e.team = some Team.ENEMY ∧
            info2.enemyHexId = some (getId e.hex)))
      (enemyMapStep (tiles.filter (fun tile => tile.team == some Team.ENEMY)) ranges
        gridPreset false (tileHelper getTile tiles) getId fuel)
      (tiles.filter (fun tile => tile.team == some Team.ALLY)) ([], cache)
      (fun k2 info2 h2 => by simp at h2) ?step
    case step =>
      intro acc allyTile hmem hacc k2 info2 h2
      have hteam : allyTile ∈ tiles ∧ allyTile.team = some Team.ALLY := by
        have h3 := List.mem_filter.mp hmem
        exact ⟨h3.1, by simpa using h3.2⟩
      revert h2
      simp only [enemyMapStep, mapRecordEnemy]
      split
      · rename_i ce hce
        intro h2
        rcases mem_mapSet _ _ _ _ h2 with h3 | h3
        · exact hacc k2 info2 h3
        · rw [Prod.mk.injEq] at h3
          obtain ⟨hk2, hinfo2⟩ := h3
          constructor
          · exact ⟨allyTile, hteam.1, hteam.2, hk2⟩
          · obtain ⟨t, ht, hid⟩ := findClosestTarget_provenance allyTile
              (tiles.filter (fun tile => tile.team == some Team.ENEMY)) _
              (tileHelper getTile tiles) defaultCanTraverse gridPreset false acc.2
              getId fuel ce hce
            have h4 := List.mem_filter.mp ht
            exact ⟨t, h4.1, by simpa using h4.2, by rw [hinfo2, hid]⟩
      · intro h2
        exact hacc k2 info2 h2
    exact fun hk => H k info hk
  · intro k info hk
    rw [getClosestAllyMap_false] at hk
    revert hk
    have H := foldl_preserve
      (P := fun (acc : List (Int × TargetInfo) × PathfindingCache) =>
        ∀ k2 info2, (k2, info2) ∈ acc.1 →
          (∃ t ∈ tiles, t.team = some Team.ENEMY ∧ k2 = getId t.hex) ∧
          (∃ a ∈ tiles, a.team = some Team.ALLY ∧
            info2.allyHexId = some (getId a.hex)))
      (allyMapStep (tiles.filter (fun tile => tile.team == some Team.ALLY)) ranges
        gridPreset false (tileHelper getTile tiles) getId fuel)
      (tiles.filter (fun tile => tile.team == some Team.ENEMY)) ([], cache)
      (fun k2 info2 h2 => by simp at h2) ?step
    case step =>
      intro acc enemyTile hmem hacc k2 info2 h2
      have hteam : enemyTile ∈ tiles ∧ enemyTile.team = some Team.ENEMY := by
        have h3 := List.mem_filter.mp hmem
        exact ⟨h3.1, by simpa using h3.2⟩
      revert h2
      simp only [allyMapStep, mapRecordAlly]
      split
      · rename_i ca hca
        intro h2
        rcases mem_mapSet _ _ _ _ h2 with h3 | h3
        · exact hacc k2 info2 h3
        · rw [Prod.mk.injEq] at h3
          obtain ⟨hk2, hinfo2⟩ := h3
          constructor
          · exact ⟨enemyTile, hteam.1, hteam.2, hk2⟩
          · obtain ⟨t, ht, hid⟩ := findClosestTarget_provenance enemyTile
              (tiles.filter (fun tile => tile.team == some Team.ALLY)) _
              (tileHelper getTile tiles) defaultCanTraverse gridPreset false acc.2
              getId fuel ca hca
            have h4 := List.mem_filter.mp ht
            exact ⟨t, h4.1, by simpa using h4.2, by rw [hinfo2, hid]⟩
      · intro h2
        exact hacc k2 info2 h2
    exact fun hk => H k info hk

/-- The two-character board of the C10 witness: one ally at the origin,
one adjacent enemy. -/
def wC10Tiles : List GridTile :=
  [⟨⟨0, 0⟩, State.OCCUPIED_ALLY, some Team.ALLY, none⟩,
   ⟨⟨1, 0⟩, State.OCCUPIED_ENEMY, some Team.ENEMY, none⟩]

/-- Witness for C10 at a concrete entry of each aggregate map. -/
theorem claim_C10_witness :
    ((wId ⟨0, 0⟩, (⟨some (wId ⟨1, 0⟩), none, .fin 0⟩ : TargetInfo)) ∈
      (getClosestEnemyMap wC10Tiles [] FULL_GRID false none PathfindingCache.empty wId
        50).1 ∧
     ((∃ t ∈ wC10Tiles, t.team = some Team.ALLY ∧ wId ⟨0, 0⟩ = wId t.hex) ∧
      (∃ e ∈ wC10Tiles, e.team = some Team.ENEMY ∧
        (⟨some (wId ⟨1, 0⟩), none, .fin 0⟩ : TargetInfo).enemyHexId =
          some (wId e.hex)))) ∧
    ((wId ⟨1, 0⟩, (⟨none, some (wId ⟨0, 0⟩), .fin 0⟩ : TargetInfo)) ∈
      (getClosestAllyMap wC10Tiles [] FULL_GRID false none PathfindingCache.empty wId
        50).1 ∧
     ((∃ t ∈ wC10Tiles, t.team = some Team.ENEMY ∧ wId ⟨1, 0⟩ = wId t.hex) ∧
      (∃ a ∈ wC10Tiles, a.team = some Team.ALLY ∧
        (⟨none, some (wId ⟨0, 0⟩), .fin 0⟩ : TargetInfo).allyHexId =
          some (wId a.hex)))) :=
  ⟨⟨by decide,
    (claim_C10_map_key_value_teams wC10Tiles [] FULL_GRID none PathfindingCache.empty
      wId 50).1 (wId ⟨0, 0⟩) ⟨some (wId ⟨1, 0⟩), none, .fin 0⟩ (by decide)⟩,
   ⟨by decide,
    (claim_C10_map_key_value_teams wC10Tiles [] FULL_GRID none PathfindingCache.empty
      wId 50).2 (wId ⟨1, 0⟩) ⟨none, some (wId ⟨0, 0⟩), .fin 0⟩ (by decide)⟩⟩

/-- Spec-side definition following the claim's words: the 1-based row
of an offset within one 45-identifier cycle of the claimed row sizes
2, 3, 2, 3, 4, 3, 4, 3, 4, 3, 4, 3, 2, 3, 2 (cumulative boundaries 2,
5, 7, 10, 14, 17, 21, 24, 28, 31, 35, 38, 40, 43, 45). -/
def specCycleRow (off : Nat) : Nat :=
  if off < 2 then 1 else if off < 5 then 2 else if off < 7 then 3
  else if off < 10 then 4 else if off < 14 then 5 else if off < 17 then 6
  else if off < 21 then 7 else if off < 24 then 8 else if off < 28 then 9
  else if off < 31 then 10 else if off < 35 then 11 else if off < 38 then 12
  else if off < 40 then 13 else if off < 43 then 14 else 15

/-- Spec-side definition following the claim's words: the row of a
positive identifier under the partition whose row sizes are the listed
cycle for identifiers 1-45 and continue that cycle periodically beyond
45. -/
def specDiagonalRow (id : Int) : Nat :=
  15 * ((id - 1).toNat / 45) + specCycleRow ((id - 1).toNat % 45)

/-- Spec-side definition following the claim's words: two positive
identifiers fall in the same block of the claimed partition. -/
def specSameDiagonalRow (id1 id2 : Int) : Bool :=
  specDiagonalRow id1 == specDiagonalRow id2

/-- Counterexample to C7: under the claim's partition (the row-size
cycle continuing 2, 3, 2, ... past identifier 45) identifiers 46 and 48
lie in different blocks (blocks [46, 47] and [48, 49, 50]), but the
code places both in the same fallback row [46, 47, 48]. -/
theorem claim_C7_counterexample :
    areHexesInSameDiagonalRow 46 48 = true ∧ specSameDiagonalRow 46 48 = false := by
  decide

/-- The corrected 0-based sub-block index within one 12-identifier
fallback period: the fallback row sizes are 3, 4, 3, 2 repeating. -/
def amendedInner (o : Nat) : Nat :=
  if o < 3 then 0 else if o < 7 then 1 else if o < 10 then 2 else 3

/-- The corrected row function actually computed by the code: the table
rows 1-15 for identifiers 1-45, and beyond 45 fallback rows numbered
from 17 (the loop increments the row index before returning, so index
16 is skipped) whose sizes cycle 3, 4, 3, 2 — row index congruent to
1 mod 4 gives size 4, even gives 3, and 3 mod 4 gives 2. -/
def amendedRow (id : Int) : Nat :=
  if id ≤ 45 then specCycleRow ((id - 1).toNat)
  else 17 + 4 * ((id - 46).toNat / 12) + amendedInner ((id - 46).toNat % 12)

/-- The first fallback row of each period has size 3. -/
theorem rowSizeOf_step1 (m : Nat) : rowSizeOf (16 + 4 * m) = 3 := by
  unfold rowSizeOf
  rw [if_neg (by omega), if_pos (by omega)]

/-- The second fallback row of each period has size 4. -/
theorem rowSizeOf_step2 (m : Nat) : rowSizeOf (16 + 4 * m + 1) = 4 := by
  unfold rowSizeOf
  rw [if_pos (by omega)]

/-- The third fallback row of each period has size 3. -/
theorem rowSizeOf_step3 (m : Nat) : rowSizeOf (16 + 4 * m + 1 + 1) = 3 := by
  unfold rowSizeOf
  rw [if_neg (by omega), if_pos (by omega)]

/-- The fourth fallback row of each period has size 2. -/
theorem rowSizeOf_step4 (m : Nat) : rowSizeOf (16 + 4 * m + 1 + 1 + 1) = 2 := by
  unfold rowSizeOf
  rw [if_neg (by omega), if_neg (by omega)]

/-- One 12-identifier period of the fallback loop, unfolded: the four
row boundaries at `+3`, `+7`, `+10` and `+12` past the period start,
then the recursive call on the next period. -/
theorem fallbackRowLoop_period (id : Int) (m : Nat) (fuel : Nat)
    (hlo : 45 + 12 * (m : Int) < id) (hfuel : id - (45 + 12 * (m : Int)) ≤ (fuel : Int)) :
    fallbackRowLoop id fuel (45 + 12 * (m : Int)) (16 + 4 * m) =
      if id ≤ 48 + 12 * (m : Int) then 17 + 4 * m
      else if id ≤ 52 + 12 * (m : Int) then 18 + 4 * m
      else if id ≤ 55 + 12 * (m : Int) then 19 + 4 * m
      else if id ≤ 57 + 12 * (m : Int) then 20 + 4 * m
      else fallbackRowLoop id (fuel - 4) (57 + 12 * (m : Int)) (20 + 4 * m) := by
  obtain ⟨f1, rfl⟩ : ∃ f, fuel = f + 1 := ⟨fuel - 1, by omega⟩
  simp only [fallbackRowLoop]
  rw [if_pos (by omega : id > 45 + 12 * (m : Int)), rowSizeOf_step1]
  by_cases h1 : id ≤ 45 + 12 * (m : Int) + 3
  · rw [if_pos h1, if_pos (by omega)]
    omega
  · rw [if_neg h1, if_neg (by omega : ¬id ≤ 48 + 12 * (m : Int))]
    obtain ⟨f2, rfl⟩ : ∃ f, f1 = f + 1 := ⟨f1 - 1, by omega⟩
    simp only [fallbackRowLoop]
    rw [if_pos (by omega : id > 45 + 12 * (m : Int) + 3), rowSizeOf_step2]
    by_cases h2 : id ≤ 45 + 12 * (m : Int) + 3 + 4
    · rw [if_pos h2, if_pos (by omega)]
      omega
    · rw [if_neg h2, if_neg (by omega : ¬id ≤ 52 + 12 * (m : Int))]
      obtain ⟨f3, rfl⟩ : ∃ f, f2 = f + 1 := ⟨f2 - 1, by omega⟩
      simp only [fallbackRowLoop]
      rw [if_pos (by omega : id > 45 + 12 * (m : Int) + 3 + 4), rowSizeOf_step3]
      by_cases h3 : id ≤ 45 + 12 * (m : Int) + 3 + 4 + 3
      · rw [if_pos h3, if_pos (by omega)]
        omega
      · rw [if_neg h3, if_neg (by omega : ¬id ≤ 55 + 12 * (m : Int))]
        obtain ⟨f4, rfl⟩ : ∃ f, f3 = f + 1 := ⟨f3 - 1, by omega⟩
        simp only [fallbackRowLoop]
        rw [if_pos (by omega : id > 45 + 12 * (m : Int) + 3 + 4 + 3), rowSizeOf_step4]
        by_cases h4 : id ≤ 45 + 12 * (m : Int) + 3 + 4 + 3 + 2
        · rw [if_pos h4, if_pos (by omega)]
          omega
        · rw [if_neg h4, if_neg (by omega : ¬id ≤ 57 + 12 * (m : Int))]
          congr 1 <;> omega

/-- Closed form of the fallback loop: starting at the beginning of
period `m`, the loop computes row `17 + 4 * period + sub-block`, where
the sub-block boundaries within a period are 3, 7 and 10. -/
theorem fallbackRowLoop_closed (fuel : Nat) : ∀ (m : Nat) (id ce : Int) (rn : Nat),
    ce = 45 + 12 * (m : Int) → rn = 16 + 4 * m →
    45 + 12 * (m : Int) < id → id - (45 + 12 * (m : Int)) ≤ (fuel : Int) →
    fallbackRowLoop id fuel ce rn =
      17 + 4 * ((id - 46).toNat / 12) + amendedInner ((id - 46).toNat % 12) := by
  induction fuel using Nat.strong_induction_on with
  | _ fuel ih =>
    intro m id ce rn hce hrn hlo hfuel
    subst hce
    subst hrn
    rw [fallbackRowLoop_period id m fuel hlo hfuel]
    by_cases h1 : id ≤ 48 + 12 * (m : Int)
    · rw [if_pos h1]
      have hq : (id - 46).toNat / 12 = m := by omega
      have hr : (id - 46).toNat % 12 < 3 := by omega
      rw [hq]
      unfold amendedInner
      rw [if_pos hr]
      omega
    · rw [if_neg h1]
      by_cases h2 : id ≤ 52 + 12 * (m : Int)
      · rw [if_pos h2]
        have hq : (id - 46).toNat / 12 = m := by omega
        have hr3 : ¬(id - 46).toNat % 12 < 3 := by omega
        have hr7 : (id - 46).toNat % 12 < 7 := by omega
        rw [hq]
        unfold amendedInner
        rw [if_neg hr3, if_pos hr7]
        omega
      · rw [if_neg h2]
        by_cases h3 : id ≤ 55 + 12 * (m : Int)
        · rw [if_pos h3]
          have hq : (id - 46).toNat / 12 = m := by omega
          have hr7 : ¬(id - 46).toNat % 12 < 7 := by omega
          have hr10 : (id - 46).toNat % 12 < 10 := by omega
          rw [hq]
          unfold amendedInner
          rw [if_neg (by omega), if_neg hr7, if_pos hr10]
          omega
        · rw [if_neg h3]
          by_cases h4 : id ≤ 57 + 12 * (m : Int)
          · rw [if_pos h4]
            have hq : (id - 46).toNat / 12 = m := by omega
            rw [hq]
            unfold amendedInner
            rw [if_neg (by omega), if_neg (by omega), if_neg (by omega)]
            omega
          · rw [if_neg h4]
            exact ih (fuel - 4) (by omega) (m + 1) id (57 + 12 * (m : Int)) (20 + 4 * m)
              (by push_cast; ring) (by omega) (by push_cast; omega) (by push_cast; omega)

/-- For identifiers beyond 45 the table scan finds no row. -/
theorem tableRowAux_none (id : Int) (h : 45 < id) : tableRowAux rowEndings 0 id = none := by
  simp only [rowEndings, tableRowAux]
  repeat rw [if_neg (by omega)]

/-- The row function computed by the code agrees with the corrected
closed form on every positive identifier. -/
theorem getRowNumber_eq_amendedRow (id : Int) (h : 1 ≤ id) :
    getRowNumber id = amendedRow id := by
  by_cases h45 : id ≤ 45
  · interval_cases id <;> decide
  · unfold getRowNumber
    rw [tableRowAux_none id (by omega)]
    show fallbackRowLoop id ((id - 45).toNat) 45 16 = amendedRow id
    unfold amendedRow
    rw [if_neg h45]
    exact fallbackRowLoop_closed ((id - 45).toNat) 0 id 45 16 (by norm_num) (by norm_num)
      (by omega) (by omega)

/-- C7 amended: `areHexesInSameDiagonalRow` holds exactly when the two
positive identifiers fall in the same block of the partition whose
blocks are the table rows for identifiers 1-45 and, beyond 45, the
fallback rows of sizes 3, 4, 3, 2 repeating (starting with the block
[46, 47, 48]) — not the continuation of the claimed 2, 3, 2, ... size
cycle. -/
theorem claim_C7_same_diagonal_row_amended (id1 id2 : Int) (h1 : 1 ≤ id1)
    (h2 : 1 ≤ id2) :
    areHexesInSameDiagonalRow id1 id2 = true ↔ amendedRow id1 = amendedRow id2 := by
  unfold areHexesInSameDiagonalRow
  rw [getRowNumber_eq_amendedRow id1 h1, getRowNumber_eq_amendedRow id2 h2]
  exact beq_iff_eq

/-- Witness for the amended C7 at the first fallback block. -/
theorem claim_C7_witness :
    ((1 : Int) ≤ 46 ∧ (1 : Int) ≤ 48) ∧
    (areHexesInSameDiagonalRow 46 48 = true ↔ amendedRow 46 = amendedRow 48) :=
  ⟨⟨by decide, by decide⟩,
   claim_C7_same_diagonal_row_amended 46 48 (by decide) (by decide)⟩

/-- A hex has a tile and the tile is traversable. -/
def traversableAt (getTile : Hex → Option GridTile) (canTraverse : GridTile → Bool)
    (h : Hex) : Prop :=
  ∃ tile, getTile h = some tile ∧ canTraverse tile = true

/-- Reachability in exactly `n` BFS steps: the start in 0 steps, and a
traversable neighbor of an `n`-step hex in `n + 1` steps (the start
itself needs no tile, exactly as in the search loops). -/
inductive ReachableIn (getTile : Hex → Option GridTile) (canTraverse : GridTile → Bool)
    (start : Hex) : Nat → Hex → Prop where
  | zero : ReachableIn getTile canTraverse start 0 start
  | succ {n : Nat} {q : Hex} (d : Fin 6) :
      ReachableIn getTile canTraverse start n q →
      traversableAt getTile canTraverse (q.neighbor d) →
      ReachableIn getTile canTraverse start (n + 1) (q.neighbor d)

/-- A hex lies on BFS layer `n`: reachable in `n` steps and in no fewer. -/
def AtLayer (getTile : Hex → Option GridTile) (canTraverse : GridTile → Bool)
    (start : Hex) (n : Nat) (h : Hex) : Prop :=
  ReachableIn getTile canTraverse start n h ∧
  ∀ k < n, ¬ReachableIn getTile canTraverse start k h

/-- A position from which some target is within attack range. -/
def inRangeOf (targets : List Hex) (range : Int) (h : Hex) : Prop :=
  ∃ t ∈ targets, (h.distance t : Int) ≤ range

/-- Zero-step reachability is exactly the start hex. -/
theorem reachableIn_zero {getTile : Hex → Option GridTile} {canTraverse : GridTile → Bool}
    {start h : Hex} (hr : ReachableIn getTile canTraverse start 0 h) : h = start := by
  cases hr
  rfl

/-- Every reachable hex lies on some layer at or below its step count. -/
theorem exists_atLayer {getTile : Hex → Option GridTile} {canTraverse : GridTile → Bool}
    {start : Hex} :
    ∀ (n : Nat) (h : Hex), ReachableIn getTile canTraverse start n h →
      ∃ k ≤ n, AtLayer getTile canTraverse start k h := by
  intro n
  induction n using Nat.strong_induction_on with
  | _ n ih =>
    intro h hr
    by_cases hmin : ∀ k < n, ¬ReachableIn getTile canTraverse start k h
    · exact ⟨n, le_refl n, hr, hmin⟩
    · push_neg at hmin
      obtain ⟨k, hk, hrk⟩ := hmin
      obtain ⟨k2, hk2, hat⟩ := ih k hk h hrk
      exact ⟨k2, by omega, hat⟩

/-- Dichotomy of one direction of the BFS layer expansion: either the
neighbor is skipped (already visited, or without a traversable tile)
and the accumulator is unchanged, or it is appended to the visited set
and the next frontier with its in-range targets accumulated. -/
theorem layerVisitDir_spec (targets : List Hex) (range : Int)
    (getTile : Hex → Option GridTile) (canTraverse : GridTile → Bool) (q : Hex)
    (acc : List Hex × List Hex × List Hex) (d : Fin 6) :
    (traversableAt getTile canTraverse (q.neighbor d) ∧ (q.neighbor d) ∉ acc.1 ∧
      layerVisitDir targets range getTile canTraverse q acc d =
        (acc.1 ++ [q.neighbor d], acc.2.1 ++ [q.neighbor d],
         acc.2.2 ++ targets.filter (fun t => ((q.neighbor d).distance t : Int) ≤ range))) ∨
    ((¬traversableAt getTile canTraverse (q.neighbor d) ∨ (q.neighbor d) ∈ acc.1) ∧
      layerVisitDir targets range getTile canTraverse q acc d = acc) := by
  unfold layerVisitDir
  by_cases hv : (q.neighbor d) ∈ acc.1
  · rw [if_pos (by simpa using hv)]
    exact Or.inr ⟨Or.inr hv, rfl⟩
  · rw [if_neg (by simpa using hv)]
    cases htile : getTile (q.neighbor d) with
    | none =>
      refine Or.inr ⟨Or.inl ?_, rfl⟩
      rintro ⟨tile, htile2, _⟩
      rw [htile] at htile2
      exact absurd htile2 (by simp)
    | some tile =>
      by_cases htr : canTraverse tile = true
      · refine Or.inl ⟨⟨tile, htile, htr⟩, hv, ?_⟩
        simp [htr]
      · have hf : canTraverse tile = false := by
          revert htr
          cases canTraverse tile <;> simp
        refine Or.inr ⟨Or.inl ?_, by simp [hf]⟩
        rintro ⟨tile2, htile2, htr2⟩
        rw [htile] at htile2
        injection htile2 with he
        rw [he] at htr
        exact htr htr2

/-- The accumulated target filter is nonempty exactly when the position
has a target in range. -/
theorem filter_inRange_ne_nil (targets : List Hex) (range : Int) (h : Hex) :
    targets.filter (fun t => decide ((h.distance t : Int) ≤ range)) ≠ [] ↔
      inRangeOf targets range h := by
  constructor
  · intro hne
    obtain ⟨t, ht⟩ := List.exists_mem_of_ne_nil _ hne
    obtain ⟨ht1, ht2⟩ := List.mem_filter.mp ht
    exact ⟨t, ht1, by simpa using ht2⟩
  · rintro ⟨t, ht, hle⟩
    exact List.ne_nil_of_mem (List.mem_filter.mpr ⟨ht, by simpa using hle⟩)

/-- Characterisation of the direction fold of one frontier hex: the
visited set stays the base set plus the next frontier, the reachable
accumulator is nonempty exactly when some next-frontier hex has a
target in range, and the next frontier gains exactly the unvisited
traversable neighbors of the processed hex. -/
theorem layerVisitDirs_spec (targets : List Hex) (range : Int)
    (getTile : Hex → Option GridTile) (canTraverse : GridTile → Bool) (q : Hex)
    (V : List Hex) :
    ∀ (ds : List (Fin 6)) (acc : List Hex × List Hex × List Hex),
      acc.1 = V ++ acc.2.1 →
      (acc.2.2 ≠ [] ↔ ∃ h ∈ acc.2.1, inRangeOf targets range h) →
      (ds.foldl (layerVisitDir targets range getTile canTraverse q) acc).1 =
        V ++ (ds.foldl (layerVisitDir targets range getTile canTraverse q) acc).2.1 ∧
      ((ds.foldl (layerVisitDir targets range getTile canTraverse q) acc).2.2 ≠ [] ↔
        ∃ h ∈ (ds.foldl (layerVisitDir targets range getTile canTraverse q) acc).2.1,
          inRangeOf targets range h) ∧
      (∀ h, h ∈ (ds.foldl (layerVisitDir targets range getTile canTraverse q) acc).2.1 ↔
        h ∈ acc.2.1 ∨ (traversableAt getTile canTraverse h ∧ h ∉ V ∧
          ∃ d ∈ ds, h = q.neighbor d)) := by
  intro ds
  induction ds with
  | nil =>
    intro acc hV hR
    exact ⟨hV, hR, fun h => by simp⟩
  | cons d ds ih =>
    intro acc hV hR
    rcases layerVisitDir_spec targets range getTile canTraverse q acc d
      with ⟨htrav, hnotin, heq⟩ | ⟨hskip, heq⟩
    · rw [List.foldl_cons, heq]
      have hV1 : (acc.1 ++ [q.neighbor d]) =
          V ++ (acc.2.1 ++ [q.neighbor d]) := by
        rw [hV, List.append_assoc]
      have hR1 : (acc.2.2 ++ targets.filter
            (fun t => decide (((q.neighbor d).distance t : Int) ≤ range))) ≠ [] ↔
          ∃ h ∈ acc.2.1 ++ [q.neighbor d], inRangeOf targets range h := by
        constructor
        · intro hne
          rcases not_and_or.mp (by rwa [Ne, List.append_eq_nil] at hne) with h1 | h2
          · obtain ⟨x, hx, hpx⟩ := hR.mp h1
            exact ⟨x, by simp [hx], hpx⟩
          · exact ⟨q.neighbor d, by simp,
              (filter_inRange_ne_nil targets range (q.neighbor d)).mp h2⟩
        · rintro ⟨x, hx, hpx⟩
          rw [Ne, List.append_eq_nil, not_and_or]
          rcases List.mem_append.mp hx with h1 | h2
          · exact Or.inl (hR.mpr ⟨x, h1, hpx⟩)
          · refine Or.inr ((filter_inRange_ne_nil targets range (q.neighbor d)).mpr ?_)
            simp only [List.mem_singleton] at h2
            rw [← h2]
            exact hpx
      obtain ⟨ihV, ihR, ihM⟩ := ih (acc.1 ++ [q.neighbor d], acc.2.1 ++ [q.neighbor d],
        acc.2.2 ++ targets.filter
          (fun t => decide (((q.neighbor d).distance t : Int) ≤ range))) hV1 hR1
      refine ⟨ihV, ihR, fun h => ?_⟩
      rw [ihM h]
      constructor
      · rintro (hin | ⟨ht, hnV, d2, hd2, heq2⟩)
        · rcases List.mem_append.mp hin with h1 | h2
          · exact Or.inl h1
          · simp only [List.mem_singleton] at h2
            refine Or.inr ⟨by rw [h2]; exact htrav, ?_, d, by simp, h2⟩
            rw [h2]
            intro hmem
            exact hnotin (by rw [hV]; exact List.mem_append.mpr (Or.inl hmem))
        · exact Or.inr ⟨ht, hnV, d2, by simp [hd2], heq2⟩
      · rintro (hin | ⟨ht, hnV, d2, hd2, heq2⟩)
        · exact Or.inl (List.mem_append.mpr (Or.inl hin))
        · rcases List.mem_cons.mp hd2 with h1 | h2
          · rw [h1] at heq2
            exact Or.inl (List.mem_append.mpr (Or.inr (by simp [heq2])))
          · exact Or.inr ⟨ht, hnV, d2, h2, heq2⟩
    · rw [List.foldl_cons, heq]
      obtain ⟨ihV, ihR, ihM⟩ := ih acc hV hR
      refine ⟨ihV, ihR, fun h => ?_⟩
      rw [ihM h]
      constructor
      · rintro (hin | ⟨ht, hnV, d2, hd2, heq2⟩)
        · exact Or.inl hin
        · exact Or.inr ⟨ht, hnV, d2, by simp [hd2], heq2⟩
      · rintro (hin | ⟨ht, hnV, d2, hd2, heq2⟩)
        · exact Or.inl hin
        · rcases List.mem_cons.mp hd2 with h1 | h2
          · rw [h1] at heq2
            rcases hskip with h3 | h3
            · rw [heq2] at ht
              exact absurd ht h3
            · rw [hV] at h3
              rcases List.mem_append.mp (heq2 ▸ h3) with h4 | h4
              · exact absurd h4 (heq2 ▸ hnV)
              · exact Or.inl (heq2 ▸ h4)
          · exact Or.inr ⟨ht, hnV, d2, h2, heq2⟩

/-- Characterisation of one full BFS layer: starting from the base
visited set and empty frontier/target accumulators, the next frontier
is exactly the set of unvisited traversable neighbors of the processed
queue, and the target accumulator is nonempty exactly when one of them
is in range. -/
theorem processLayer_spec (targets : List Hex) (range : Int)
    (getTile : Hex → Option GridTile) (canTraverse : GridTile → Bool)
    (V : List Hex) :
    ∀ (Q : List Hex) (acc : List Hex × List Hex × List Hex),
      acc.1 = V ++ acc.2.1 →
      (acc.2.2 ≠ [] ↔ ∃ h ∈ acc.2.1, inRangeOf targets range h) →
      (Q.foldl (layerVisitHex targets range getTile canTraverse) acc).1 =
        V ++ (Q.foldl (layerVisitHex targets range getTile canTraverse) acc).2.1 ∧
      ((Q.foldl (layerVisitHex targets range getTile canTraverse) acc).2.2 ≠ [] ↔
        ∃ h ∈ (Q.foldl (layerVisitHex targets range getTile canTraverse) acc).2.1,
          inRangeOf targets range h) ∧
      (∀ h, h ∈ (Q.foldl (layerVisitHex targets range getTile canTraverse) acc).2.1 ↔
        h ∈ acc.2.1 ∨ (traversableAt getTile canTraverse h ∧ h ∉ V ∧
          ∃ q ∈ Q, ∃ d : Fin 6, h = q.neighbor d)) := by
  intro Q
  induction Q with
  | nil =>
    intro acc hV hR
    exact ⟨hV, hR, fun h => by simp⟩
  | cons q Q ih =>
    intro acc hV hR
    rw [List.foldl_cons]
    obtain ⟨hV1, hR1, hM1⟩ := layerVisitDirs_spec targets range getTile canTraverse q V
      (List.finRange 6) acc hV hR
    obtain ⟨ihV, ihR, ihM⟩ := ih
      (layerVisitHex targets range getTile canTraverse acc q) hV1 hR1
    refine ⟨ihV, ihR, fun h => ?_⟩
    rw [ihM h]
    have hM1h := hM1 h
    constructor
    · rintro (hin | ⟨ht, hnV, q2, hq2, hd2⟩)
      · rcases (hM1h.mp hin) with h1 | ⟨ht, hnV, d2, _, heq2⟩
        · exact Or.inl h1
        · exact Or.inr ⟨ht, hnV, q, by simp, d2, heq2⟩
      · exact Or.inr ⟨ht, hnV, q2, by simp [hq2], hd2⟩
    · rintro (hin | ⟨ht, hnV, q2, hq2, d2, heq2⟩)
      · exact Or.inl (hM1h.mpr (Or.inl hin))
      · rcases List.mem_cons.mp hq2 with h1 | h2
        · exact Or.inl (hM1h.mpr (Or.inr ⟨ht, hnV, d2, by simp, by rw [h1] at heq2; exact heq2⟩))
        · exact Or.inr ⟨ht, hnV, q2, h2, d2, heq2⟩

/-- The layer characterisation applied to a whole `processLayer` call:
visited becomes the old visited plus the next frontier, the next
frontier is exactly the unvisited traversable neighbors of the queue,
and the target accumulator is nonempty exactly when a next-frontier
position is in range. -/
theorem processLayer_full_spec (targets : List Hex) (range : Int)
    (getTile : Hex → Option GridTile) (canTraverse : GridTile → Bool)
    (V Q : List Hex) :
    (processLayer targets range getTile canTraverse Q V).1 =
      V ++ (processLayer targets range getTile canTraverse Q V).2.1 ∧
    ((processLayer targets range getTile canTraverse Q V).2.2 ≠ [] ↔
      ∃ h ∈ (processLayer targets range getTile canTraverse Q V).2.1,
        inRangeOf targets range h) ∧
    (∀ h, h ∈ (processLayer targets range getTile canTraverse Q V).2.1 ↔
      traversableAt getTile canTraverse h ∧ h ∉ V ∧
        ∃ q ∈ Q, ∃ d : Fin 6, h = q.neighbor d) := by
  obtain ⟨a, b, c⟩ := processLayer_spec targets range getTile canTraverse V Q
    (V, [], []) (by simp) (by simp)
  refine ⟨a, b, fun h => ?_⟩
  rw [show processLayer targets range getTile canTraverse Q V =
    List.foldl (layerVisitHex targets range getTile canTraverse) (V, [], []) Q from rfl]
  rw [c h]
  simp

/-- A hex is on layer `m + 1` exactly when it is traversable, not
reachable within `m` steps, and a neighbor of some layer-`m` hex. -/
theorem atLayer_succ_iff (getTile : Hex → Option GridTile) (canTraverse : GridTile → Bool)
    (start : Hex) (m : Nat) (h : Hex) :
    AtLayer getTile canTraverse start (m + 1) h ↔
      traversableAt getTile canTraverse h ∧
      ¬(∃ k ≤ m, ReachableIn getTile canTraverse start k h) ∧
      ∃ q, AtLayer getTile canTraverse start m q ∧ ∃ d : Fin 6, h = q.neighbor d := by
  constructor
  · rintro ⟨hr, hmin⟩
    cases hr with
    | succ d hq htrav =>
      rename_i q
      refine ⟨htrav, ?_, ?_⟩
      · rintro ⟨k, hk, hrk⟩
        exact hmin k (by omega) hrk
      · obtain ⟨k0, hk0, hat⟩ := exists_atLayer _ q hq
        have hk0m : k0 = m := by
          by_contra hne
          exact hmin (k0 + 1) (by omega) (ReachableIn.succ d hat.1 htrav)
        exact ⟨q, hk0m ▸ hat, d, rfl⟩
  · rintro ⟨htrav, hnr, q, hatq, d, heq⟩
    subst heq
    refine ⟨ReachableIn.succ d hatq.1 htrav, ?_⟩
    intro k hk hrk
    exact hnr ⟨k, by omega, hrk⟩

/-- Once a layer is empty, every later layer is empty. -/
theorem atLayer_empty_above (getTile : Hex → Option GridTile)
    (canTraverse : GridTile → Bool) (start : Hex) (m : Nat)
    (hemp : ∀ h, ¬AtLayer getTile canTraverse start m h) :
    ∀ k, m ≤ k → ∀ h, ¬AtLayer getTile canTraverse start k h := by
  intro k hk
  induction k, hk using Nat.le_induction with
  | base => exact hemp
  | succ k hk ih =>
    intro h hat
    rw [atLayer_succ_iff] at hat
    obtain ⟨_, _, q, hq, _⟩ := hat
    exact ih q hq

/-- Characterisation of the BFS loop from any consistent state: either
it succeeds at the first layer past `m` that contains an in-range
position (with a finite movement in `(m, 20]`), or it returns the
unreachable marker and no layer in `(m, 20]` contains an in-range
position. -/
theorem rangedLoop_spec (targets : List Hex) (range : Int)
    (getTile : Hex → Option GridTile) (canTraverse : GridTile → Bool) (start : Hex) :
    ∀ (fuelLeft m : Nat) (Q V : List Hex),
      m + fuelLeft = 20 →
      (∀ h, h ∈ Q ↔ AtLayer getTile canTraverse start m h) →
      (∀ h, h ∈ V ↔ ∃ k ≤ m, ReachableIn getTile canTraverse start k h) →
      (∃ d ts, rangedLoop targets range getTile canTraverse fuelLeft Q V m =
          ⟨.fin d, true, ts⟩ ∧ m < d ∧ d ≤ 20 ∧
          ∃ h, AtLayer getTile canTraverse start d h ∧ inRangeOf targets range h) ∨
      (rangedLoop targets range getTile canTraverse fuelLeft Q V m =
          unreachableRanged ∧
        ¬∃ k h, m < k ∧ k ≤ 20 ∧ AtLayer getTile canTraverse start k h ∧
          inRangeOf targets range h) := by
  intro fuelLeft
  induction fuelLeft with
  | zero =>
    intro m Q V hm hQ hV
    right
    refine ⟨rfl, ?_⟩
    rintro ⟨k, h, hk1, hk2, _, _⟩
    omega
  | succ fl ih =>
    intro m Q V hm hQ hV
    by_cases hQne : Q ≠ []
    · have hm20 : m < 20 := by omega
      obtain ⟨hV1, hR1, hM1⟩ := processLayer_full_spec targets range getTile canTraverse V Q
      have hN : ∀ h, h ∈ (processLayer targets range getTile canTraverse Q V).2.1 ↔
          AtLayer getTile canTraverse start (m + 1) h := by
        intro h
        rw [hM1 h, atLayer_succ_iff]
        constructor
        · rintro ⟨ht, hnV, q, hq, d, heq⟩
          refine ⟨ht, ?_, q, (hQ q).mp hq, d, heq⟩
          rintro ⟨k, hk, hrk⟩
          exact hnV ((hV h).mpr ⟨k, hk, hrk⟩)
        · rintro ⟨ht, hnr, q, hatq, d, heq⟩
          refine ⟨ht, ?_, q, (hQ q).mpr hatq, d, heq⟩
          intro hmem
          exact hnr ((hV h).mp hmem)
      by_cases hRne : (processLayer targets range getTile canTraverse Q V).2.2 ≠ []
      · left
        obtain ⟨h0, hmem0, hir0⟩ := hR1.mp hRne
        refine ⟨m + 1, dedupKeepFirst (processLayer targets range getTile canTraverse Q V).2.2,
          ?_, by omega, by omega, h0, (hN h0).mp hmem0, hir0⟩
        simp only [rangedLoop]
        rw [if_pos ⟨hQne, hm20⟩, if_pos hRne]
      · have hstep : rangedLoop targets range getTile canTraverse (fl + 1) Q V m =
            rangedLoop targets range getTile canTraverse fl
              (processLayer targets range getTile canTraverse Q V).2.1
              (processLayer targets range getTile canTraverse Q V).1 (m + 1) := by
          simp only [rangedLoop]
          rw [if_pos ⟨hQne, hm20⟩, if_neg hRne]
        have hV2 : ∀ h, h ∈ (processLayer targets range getTile canTraverse Q V).1 ↔
            ∃ k ≤ m + 1, ReachableIn getTile canTraverse start k h := by
          intro h
          rw [hV1, List.mem_append]
          constructor
          · rintro (h1 | h2)
            · obtain ⟨k, hk, hr⟩ := (hV h).mp h1
              exact ⟨k, by omega, hr⟩
            · exact ⟨m + 1, le_refl _, ((hN h).mp h2).1⟩
          · rintro ⟨k, hk, hr⟩
            obtain ⟨k0, hk0, hat⟩ := exists_atLayer _ h hr
            by_cases hk0m : k0 ≤ m
            · exact Or.inl ((hV h).mpr ⟨k0, hk0m, hat.1⟩)
            · have : k0 = m + 1 := by omega
              exact Or.inr ((hN h).mpr (this ▸ hat))
        rcases ih (m + 1) (processLayer targets range getTile canTraverse Q V).2.1
          (processLayer targets range getTile canTraverse Q V).1 (by omega) hN hV2
          with ⟨d, ts, hres, hd1, hd2, hex⟩ | ⟨hres, hnex⟩
        · exact Or.inl ⟨d, ts, by rw [hstep]; exact hres, by omega, hd2, hex⟩
        · right
          refine ⟨by rw [hstep]; exact hres, ?_⟩
          rintro ⟨k, h, hk1, hk2, hat, hir⟩
          by_cases hkm : k = m + 1
          · exact hRne (hR1.mpr ⟨h, (hN h).mpr (hkm ▸ hat), hir⟩)
          · exact hnex ⟨k, h, by omega, hk2, hat, hir⟩
    · right
      push_neg at hQne
      constructor
      · simp only [rangedLoop]
        rw [if_neg (by simp [hQne])]
      · have hemp : ∀ h, ¬AtLayer getTile canTraverse start m h := by
          intro h hat
          have := (hQ h).mpr hat
          rw [hQne] at this
          simp at this
        rintro ⟨k, h, hk1, hk2, hat, _⟩
        exact atLayer_empty_above getTile canTraverse start m hemp k (by omega) h hat

/-- C4: with a non-empty target list and no target within range of the
start, `calculateRangedMovementDistance` returns the unreachable marker
(`canReach = false`, infinite movement, empty target set — second
conjunct) exactly when no position reachable within the 20-layer BFS
cap comes within range of any target (first conjunct, the
biconditional: the search never gives up while an in-range position
remains inside the cap), and every successful result carries a finite
movement distance between 1 and 20 (third conjunct). -/
theorem claim_C4_bfs_twenty_layer_cap (start : Hex) (targets : List Hex) (range : Int)
    (getTile : Hex → Option GridTile) (canTraverse : GridTile → Bool)
    (hne : targets ≠ [])
    (hnoimm : ∀ t ∈ targets, ¬((start.distance t : Int) ≤ range)) :
    (calculateRangedMovementDistance start targets range getTile canTraverse =
        unreachableRanged ↔
      ¬∃ (n : Nat) (h : Hex), 1 ≤ n ∧ n ≤ 20 ∧
        ReachableIn getTile canTraverse start n h ∧ inRangeOf targets range h) ∧
    ((calculateRangedMovementDistance start targets range getTile canTraverse).canReach =
        false →
      calculateRangedMovementDistance start targets range getTile canTraverse =
        unreachableRanged) ∧
    ((calculateRangedMovementDistance start targets range getTile canTraverse).canReach =
        true →
      ∃ d, (calculateRangedMovementDistance start targets range getTile
        canTraverse).movementDistance = MovementDist.fin d ∧ 1 ≤ d ∧ d ≤ 20) := by
  have hfilter : targets.filter (fun t => decide ((start.distance t : Int) ≤ range)) = [] := by
    rw [List.filter_eq_nil]
    intro t ht
    simpa using hnoimm t ht
  have hcrmd : calculateRangedMovementDistance start targets range getTile canTraverse =
      rangedLoop targets range getTile canTraverse 20 [start] [start] 0 := by
    simp only [calculateRangedMovementDistance]
    rw [if_neg hne, hfilter]
    simp
  have hQ0 : ∀ h, h ∈ [start] ↔ AtLayer getTile canTraverse start 0 h := by
    intro h
    simp only [List.mem_singleton]
    constructor
    · rintro rfl
      exact ⟨ReachableIn.zero, fun k hk => by omega⟩
    · rintro ⟨hr, _⟩
      exact reachableIn_zero hr
  have hV0 : ∀ h, h ∈ [start] ↔ ∃ k ≤ 0, ReachableIn getTile canTraverse start k h := by
    intro h
    simp only [List.mem_singleton]
    constructor
    · rintro rfl
      exact ⟨0, le_refl 0, ReachableIn.zero⟩
    · rintro ⟨k, hk, hr⟩
      have hk0 : k = 0 := by omega
      exact reachableIn_zero (hk0 ▸ hr)
  rcases rangedLoop_spec targets range getTile canTraverse start 20 0 [start] [start]
      (by omega) hQ0 hV0 with ⟨d, ts, hres, hd1, hd2, h0, hat, hir⟩ | ⟨hres, hnex⟩
  · rw [hcrmd, hres]
    refine ⟨?_, ?_, ?_⟩
    · exact iff_of_false (by simp [unreachableRanged])
        (fun hn => hn ⟨d, h0, by omega, hd2, hat.1, hir⟩)
    · intro hcr
      simp at hcr
    · intro _
      exact ⟨d, rfl, by omega, hd2⟩
  · rw [hcrmd, hres]
    refine ⟨?_, fun _ => rfl, ?_⟩
    · refine iff_of_true rfl ?_
      rintro ⟨n, h, hn1, hn2, hr, hir⟩
      obtain ⟨k0, hk0, hat⟩ := exists_atLayer n h hr
      by_cases hk00 : k0 = 0
      · have hstart : h = start := reachableIn_zero (hk00 ▸ hat.1)
        obtain ⟨t, ht, hle⟩ := hir
        exact hnoimm t ht (by rw [← hstart]; exact hle)
      · exact hnex ⟨k0, h, by omega, by omega, hat, hir⟩
    · intro hcr
      simp [unreachableRanged] at hcr

/-- Witness for C4: a target five hexes away on a grid with no tiles at
all is unreachable, and the characterisation applies. -/
theorem claim_C4_witness :
    (([⟨5, 0⟩] : List Hex) ≠ [] ∧
     ∀ t ∈ ([⟨5, 0⟩] : List Hex), ¬((Hex.distance ⟨0, 0⟩ t : Int) ≤ 1)) ∧
    (calculateRangedMovementDistance ⟨0, 0⟩ [⟨5, 0⟩] 1 (fun _ => none)
        defaultCanTraverse = unreachableRanged ↔
      ¬∃ (n : Nat) (h : Hex), 1 ≤ n ∧ n ≤ 20 ∧
        ReachableIn (fun _ => none) defaultCanTraverse ⟨0, 0⟩ n h ∧
        inRangeOf [⟨5, 0⟩] 1 h) :=
  ⟨⟨by decide, by decide⟩,
   (claim_C4_bfs_twenty_layer_cap ⟨0, 0⟩ [⟨5, 0⟩] 1 (fun _ => none) defaultCanTraverse
     (by decide) (by decide)).1⟩

/-- A match found in a prefix is the match in the whole list. -/
theorem find?_take {α : Type} (p : α → Bool) :
    ∀ (n : Nat) (l : List α) (x : α), (l.take n).find? p = some x → l.find? p = some x := by
  intro n
  induction n with
  | zero =>
    intro l x h
    simp [List.take] at h
  | succ n ih =>
    intro l x h
    cases l with
    | nil => simpa using h
    | cons a l2 =>
      rw [List.take_succ_cons] at h
      by_cases hp : p a
      · rw [List.find?_cons_of_pos _ hp] at h ⊢
        exact h
      · rw [List.find?_cons_of_neg _ hp] at h ⊢
        exact ih l2 x h

/-- Filtering out one key leaves lookups of every other key unchanged. -/
theorem find?_filter_ne {K V : Type} [DecidableEq K] (l : List (K × V)) (k k2 : K)
    (hne : k2 ≠ k) :
    (l.filter (fun e => !(e.1 == k))).find? (fun e => e.1 == k2) =
      l.find? (fun e => e.1 == k2) := by
  induction l with
  | nil => rfl
  | cons e l2 ih =>
    by_cases hk : e.1 = k
    · rw [List.filter_cons_of_neg (by simp [hk])]
      rw [List.find?_cons_of_neg _ (by simp [hk]; exact fun h => hne h.symm)]
      exact ih
    · rw [List.filter_cons_of_pos (by simp [hk])]
      by_cases hk2 : e.1 = k2
      · rw [List.find?_cons_of_pos _ (by simp [hk2]),
          List.find?_cons_of_pos _ (by simp [hk2])]
      · rw [List.find?_cons_of_neg _ (by simp [hk2]),
          List.find?_cons_of_neg _ (by simp [hk2])]
        exact ih

/-- A cache read returns exactly the stored value of the key. -/
theorem MemoCache.get_fst {K V : Type} [DecidableEq K] (c : MemoCache K V) (k : K) :
    (c.get k).1 = c.lookup k := by
  unfold MemoCache.get MemoCache.lookup
  cases c.entries.find? (fun e => e.1 == k) <;> rfl

/-- A miss leaves the cache untouched. -/
theorem MemoCache.get_of_lookup_none {K V : Type} [DecidableEq K] (c : MemoCache K V)
    (k : K) (h : c.lookup k = none) : c.get k = (none, c) := by
  unfold MemoCache.lookup at h
  unfold MemoCache.get
  rw [Option.map_eq_none'.mp h]

/-- The LRU refresh performed by a read changes no stored value. -/
theorem MemoCache.get_lookup {K V : Type} [DecidableEq K] (c : MemoCache K V) (k k2 : K) :
    ((c.get k).2).lookup k2 = c.lookup k2 := by
  unfold MemoCache.get
  cases hf : c.entries.find? (fun e => e.1 == k) with
  | none => rfl
  | some e =>
    have hek : e.1 = k := by simpa using List.find?_some hf
    unfold MemoCache.lookup
    by_cases hk2 : k2 = k
    · rw [List.find?_cons_of_pos _ (by simp [hek, hk2])]
      rw [hk2, hf]
    · rw [List.find?_cons_of_neg _ (by simp [hek]; exact fun h => hk2 h.symm)]
      rw [find?_filter_ne c.entries k k2 hk2]

/-- After a write, a found value is the written one (under the written
key) or a previously stored one. -/
theorem MemoCache.lookup_set {K V : Type} [DecidableEq K] (c : MemoCache K V)
    (k : K) (v : V) (k2 : K) (v2 : V)
    (h : (c.set k v).lookup k2 = some v2) :
    (k2 = k ∧ v2 = v) ∨ c.lookup k2 = some v2 := by
  unfold MemoCache.set MemoCache.lookup at h
  have h2 := find?_take _ c.capacity _ _ (by
    simpa using (Option.map_eq_some'.mp h).choose_spec.1)
  obtain ⟨e, he, hev⟩ := Option.map_eq_some'.mp h
  have he2 := find?_take _ c.capacity _ _ he
  by_cases hk2 : k2 = k
  · rw [List.find?_cons_of_pos _ (by simp [hk2])] at he2
    injection he2 with he3
    exact Or.inl ⟨hk2, by rw [← hev, ← he3]⟩
  · rw [List.find?_cons_of_neg _ (by simp; exact fun h => hk2 h.symm)] at he2
    rw [find?_filter_ne c.entries k k2 hk2] at he2
    unfold MemoCache.lookup
    rw [he2]
    exact Or.inr (by simp [hev])

/-- The result of an uncached call does not depend on the cache
argument. -/
theorem calcED_false_fst_indep (start goal : Hex) (range : Int)
    (getTile : Hex → Option GridTile) (canTraverse : GridTile → Bool)
    (c1 c2 : PathfindingCache) (getId : Hex → Int) (fuel : Nat) :
    (calculateEffectiveDistance start goal range getTile canTraverse false c1 getId
      fuel).1 =
    (calculateEffectiveDistance start goal range getTile canTraverse false c2 getId
      fuel).1 := by
  rw [calculateEffectiveDistance_false, calculateEffectiveDistance_false]
  by_cases hdist : (start.distance goal : Int) ≤ range
  · rw [if_pos hdist, if_pos hdist]
  · rw [if_neg hdist, if_neg hdist]
    cases findPath start goal getTile canTraverse fuel <;> rfl

/-- `calculateEffectiveDistance` touches only the effective-distance
cache: the other three caches pass through unchanged, in both modes. -/
theorem calcED_other_fields (start goal : Hex) (range : Int)
    (getTile : Hex → Option GridTile) (canTraverse : GridTile → Bool) (b : Bool)
    (c : PathfindingCache) (getId : Hex → Int) (fuel : Nat) :
    (calculateEffectiveDistance start goal range getTile canTraverse b c getId
      fuel).2.pathCache = c.pathCache ∧
    (calculateEffectiveDistance start goal range getTile canTraverse b c getId
      fuel).2.closestEnemyCache = c.closestEnemyCache ∧
    (calculateEffectiveDistance start goal range getTile canTraverse b c getId
      fuel).2.closestAllyCache = c.closestAllyCache := by
  cases b
  · rw [calcED_false_cache]
    exact ⟨rfl, rfl, rfl⟩
  · refine ⟨?_, ?_, ?_⟩ <;>
      (simp only [calculateEffectiveDistance, generatePathCacheKey]
       split
       · rename_i cached cache1 heq
         rw [if_true] at heq
         injection heq with hA hB
         subst hB
         rfl
       · rename_i cache1 heq
         rw [if_true] at heq
         injection heq with hA hB
         subst hB
         split
         · rfl
         · split <;> rfl)

/-- One cached call whose (possible) stored value for its own key is
the uncached result: it returns the uncached result, and every entry of
the resulting effective-distance cache is an old entry or the uncached
result under the call's key. -/
theorem calcED_true_step (start goal : Hex) (range : Int)
    (getTile : Hex → Option GridTile) (canTraverse : GridTile → Bool)
    (c : PathfindingCache) (getId : Hex → Int) (fuel : Nat)
    (hhit : ∀ v, c.effectiveDistanceCache.lookup (getId start, getId goal, range) = some v →
      v = (calculateEffectiveDistance start goal range getTile canTraverse false c getId
        fuel).1) :
    (calculateEffectiveDistance start goal range getTile canTraverse true c getId
      fuel).1 =
      (calculateEffectiveDistance start goal range getTile canTraverse false c getId
        fuel).1 ∧
    ∀ k2 v2, ((calculateEffectiveDistance start goal range getTile canTraverse true c
        getId fuel).2).effectiveDistanceCache.lookup k2 = some v2 →
      c.effectiveDistanceCache.lookup k2 = some v2 ∨
      (k2 = (getId start, getId goal, range) ∧
       v2 = (calculateEffectiveDistance start goal range getTile canTraverse false c
         getId fuel).1) := by
  cases hlk : c.effectiveDistanceCache.lookup (getId start, getId goal, range) with
  | some v =>
    have h1 : calculateEffectiveDistance start goal range getTile canTraverse true c
        getId fuel =
        (v, { c with effectiveDistanceCache :=
          (c.effectiveDistanceCache.get (getId start, getId goal, range)).2 }) := by
      simp only [calculateEffectiveDistance, generatePathCacheKey]
      rw [MemoCache.get_fst, hlk, if_true]
    rw [h1]
    refine ⟨?_, ?_⟩
    · exact hhit v hlk
    intro k2 v2 h2
    rw [show ({ c with effectiveDistanceCache :=
        (c.effectiveDistanceCache.get (getId start, getId goal, range)).2 } :
        PathfindingCache).effectiveDistanceCache =
      (c.effectiveDistanceCache.get (getId start, getId goal, range)).2 from rfl] at h2
    rw [MemoCache.get_lookup] at h2
    exact Or.inl h2
  | none =>
    have hgf : c.effectiveDistanceCache.get (getId start, getId goal, range) =
        (none, c.effectiveDistanceCache) :=
      MemoCache.get_of_lookup_none _ _ hlk
    have h1 : calculateEffectiveDistance start goal range getTile canTraverse true c
        getId fuel =
        (if (start.distance goal : Int) ≤ range then
          (⟨.fin 0, true, start.distance goal⟩,
           { c with effectiveDistanceCache := c.effectiveDistanceCache.set (getId start, getId goal, range) ⟨.fin 0, true, start.distance goal⟩ })
         else
          match findPath start goal getTile canTraverse fuel with
          | none =>
            (⟨.inf, false, start.distance goal⟩,
             { c with effectiveDistanceCache := c.effectiveDistanceCache.set (getId start, getId goal, range) ⟨.inf, false, start.distance goal⟩ })
          | some path =>
            (⟨.fin (((path.length : Int) - 1) - range).toNat, true, start.distance goal⟩,
             { c with effectiveDistanceCache := c.effectiveDistanceCache.set (getId start, getId goal, range) ⟨.fin (((path.length : Int) - 1) - range).toNat, true, start.distance goal⟩ })) := by
      simp only [calculateEffectiveDistance, generatePathCacheKey]
      rw [hgf]
      rfl
    rw [h1, calculateEffectiveDistance_false]
    by_cases hdist : (start.distance goal : Int) ≤ range
    · rw [if_pos hdist, if_pos hdist]
      refine ⟨rfl, ?_⟩
      intro k2 v2 h2
      rcases MemoCache.lookup_set _ _ _ _ _ h2 with ⟨hk, hv⟩ | hold
      · exact Or.inr ⟨hk, by rw [hv]⟩
      · exact Or.inl hold
    · rw [if_neg hdist, if_neg hdist]
      cases hfp : findPath start goal getTile canTraverse fuel with
      | none =>
        refine ⟨rfl, ?_⟩
        intro k2 v2 h2
        rcases MemoCache.lookup_set _ _ _ _ _ h2 with ⟨hk, hv⟩ | hold
        · exact Or.inr ⟨hk, by rw [hv]⟩
        · exact Or.inl hold
      | some path =>
        refine ⟨rfl, ?_⟩
        intro k2 v2 h2
        rcases MemoCache.lookup_set _ _ _ _ _ h2 with ⟨hk, hv⟩ | hold
        · exact Or.inr ⟨hk, by rw [hv]⟩
        · exact Or.inl hold

/-- An empty memo cache answers no lookup. -/
theorem MemoCache.lookup_nil {K V : Type} [DecidableEq K] (cap : Nat) (k : K) :
    (MemoCache.mk ([] : List (K × V)) cap).lookup k = none := rfl

/-- The target-cell override depends only on the target's hex. -/
theorem overrideTraverse_eq (canTraverse : GridTile → Bool) (t : GridTile) :
    overrideTraverse canTraverse t = overrideAt canTraverse t.hex := rfl

/-- Coherence of the effective-distance cache with the calls of the
melee loop that populate it: every value stored under a key formed from
hex identifiers is the uncached result of the corresponding call, with
the goal's own cell treated as traversable. -/
def EffInv (getTile : Hex → Option GridTile) (canTraverse : GridTile → Bool)
    (getId : Hex → Int) (fuel : Nat) (c : PathfindingCache) : Prop :=
  ∀ (s g : Hex) (r : Int) (v : DistanceResult),
    c.effectiveDistanceCache.lookup (getId s, getId g, r) = some v →
    v = (calculateEffectiveDistance s g r getTile (overrideAt canTraverse g) false
      PathfindingCache.empty getId fuel).1

/-- The empty cache is vacuously coherent. -/
theorem EffInv_empty (getTile : Hex → Option GridTile) (canTraverse : GridTile → Bool)
    (getId : Hex → Int) (fuel : Nat) :
    EffInv getTile canTraverse getId fuel PathfindingCache.empty := by
  intro s g r v h
  rw [show PathfindingCache.empty.effectiveDistanceCache =
    MemoCache.mk ([] : List ((Int × Int × Int) × DistanceResult)) 500 from rfl,
    MemoCache.lookup_nil] at h
  exact absurd h (by simp)

/-- The cache-free unfolding of the melee loop of `findClosestTarget`:
the running best after processing a list of target tiles, every
effective distance computed without caching. -/
def meleePure (sourceTile : GridTile) (targetTiles : List GridTile)
    (sourceRange : Int) (getTile : Hex → Option GridTile)
    (canTraverse : GridTile → Bool) (getId : Hex → Int) (fuel : Nat) :
    Option TargetResult → List GridTile → Option TargetResult
  | cl, [] => cl
  | cl, t :: ts =>
    meleePure sourceTile targetTiles sourceRange getTile canTraverse getId fuel
      (meleeUpdate sourceTile targetTiles getId cl t
        (calculateEffectiveDistance sourceTile.hex t.hex sourceRange getTile
          (overrideAt canTraverse t.hex) false PathfindingCache.empty getId fuel).1)
      ts

/-- With caching disabled the melee loop is its cache-free unfolding
and leaves the cache untouched. -/
theorem melee_fold_false (sourceTile : GridTile) (targetTiles : List GridTile)
    (sourceRange : Int) (getTile : Hex → Option GridTile)
    (canTraverse : GridTile → Bool) (getId : Hex → Int) (fuel : Nat) :
    ∀ (ts : List GridTile) (cl : Option TargetResult) (c : PathfindingCache),
    ts.foldl (meleeLoopStep sourceTile targetTiles sourceRange getTile canTraverse
        false getId fuel) (cl, c) =
      (meleePure sourceTile targetTiles sourceRange getTile canTraverse getId fuel
        cl ts, c)
  | [], cl, c => rfl
  | t :: ts, cl, c => by
    rw [List.foldl_cons]
    rw [show meleeLoopStep sourceTile targetTiles sourceRange getTile canTraverse
        false getId fuel (cl, c) t =
      (meleeUpdate sourceTile targetTiles getId cl t
        (calculateEffectiveDistance sourceTile.hex t.hex sourceRange getTile
          (overrideAt canTraverse t.hex) false c getId fuel).1,
       (calculateEffectiveDistance sourceTile.hex t.hex sourceRange getTile
          (overrideAt canTraverse t.hex) false c getId fuel).2) from rfl]
    rw [calcED_false_cache,
      calcED_false_fst_indep sourceTile.hex t.hex sourceRange getTile
        (overrideAt canTraverse t.hex) c PathfindingCache.empty getId fuel]
    rw [melee_fold_false sourceTile targetTiles sourceRange getTile canTraverse getId fuel ts _ c]
    rfl

/-- With caching enabled and a coherent cache, the melee loop computes
exactly its cache-free unfolding, keeps the cache coherent, and touches
neither aggregate-map cache.  Requires the hex identifier assignment to
be injective (distinct hexes get distinct cache keys). -/
theorem melee_fold_true (sourceTile : GridTile) (targetTiles : List GridTile)
    (sourceRange : Int) (getTile : Hex → Option GridTile)
    (canTraverse : GridTile → Bool) (getId : Hex → Int) (fuel : Nat)
    (hinj : Function.Injective getId) :
    ∀ (ts : List GridTile) (cl : Option TargetResult) (c : PathfindingCache),
    EffInv getTile canTraverse getId fuel c →
    (ts.foldl (meleeLoopStep sourceTile targetTiles sourceRange getTile canTraverse
        true getId fuel) (cl, c)).1 =
      meleePure sourceTile targetTiles sourceRange getTile canTraverse getId fuel
        cl ts ∧
    EffInv getTile canTraverse getId fuel
      ((ts.foldl (meleeLoopStep sourceTile targetTiles sourceRange getTile canTraverse
        true getId fuel) (cl, c)).2) ∧
    ((ts.foldl (meleeLoopStep sourceTile targetTiles sourceRange getTile canTraverse
        true getId fuel) (cl, c)).2).closestEnemyCache = c.closestEnemyCache ∧
    ((ts.foldl (meleeLoopStep sourceTile targetTiles sourceRange getTile canTraverse
        true getId fuel) (cl, c)).2).closestAllyCache = c.closestAllyCache := by
  intro ts
  induction ts with
  | nil => exact fun cl c hc => ⟨rfl, hc, rfl, rfl⟩
  | cons t ts ih =>
    intro cl c hc
    rw [List.foldl_cons]
    rw [show meleeLoopStep sourceTile targetTiles sourceRange getTile canTraverse
        true getId fuel (cl, c) t =
      (meleeUpdate sourceTile targetTiles getId cl t
        (calculateEffectiveDistance sourceTile.hex t.hex sourceRange getTile
          (overrideTraverse canTraverse t) true c getId fuel).1,
       (calculateEffectiveDistance sourceTile.hex t.hex sourceRange getTile
          (overrideTraverse canTraverse t) true c getId fuel).2) from rfl]
    have hhit : ∀ v, c.effectiveDistanceCache.lookup
        (getId sourceTile.hex, getId t.hex, sourceRange) = some v →
        v = (calculateEffectiveDistance sourceTile.hex t.hex sourceRange getTile
          (overrideTraverse canTraverse t) false c getId fuel).1 := by
      intro v hv
      rw [hc sourceTile.hex t.hex sourceRange v hv, overrideTraverse_eq]
      exact calcED_false_fst_indep _ _ _ _ _ PathfindingCache.empty c _ _
    obtain ⟨hA, hB⟩ := calcED_true_step sourceTile.hex t.hex sourceRange getTile
      (overrideTraverse canTraverse t) c getId fuel hhit
    obtain ⟨hE1, hE2, hE3⟩ := calcED_other_fields sourceTile.hex t.hex sourceRange
      getTile (overrideTraverse canTraverse t) true c getId fuel
    have hcl : meleeUpdate sourceTile targetTiles getId cl t
        (calculateEffectiveDistance sourceTile.hex t.hex sourceRange getTile
          (overrideTraverse canTraverse t) true c getId fuel).1 =
      meleeUpdate sourceTile targetTiles getId cl t
        (calculateEffectiveDistance sourceTile.hex t.hex sourceRange getTile
          (overrideAt canTraverse t.hex) false PathfindingCache.empty getId fuel).1 := by
      rw [hA, overrideTraverse_eq]
      rw [calcED_false_fst_indep sourceTile.hex t.hex sourceRange getTile
        (overrideAt canTraverse t.hex) c PathfindingCache.empty getId fuel]
    have hinv2 : EffInv getTile canTraverse getId fuel
        ((calculateEffectiveDistance sourceTile.hex t.hex sourceRange getTile
          (overrideTraverse canTraverse t) true c getId fuel).2) := by
      intro s2 g2 rr v2 hv2
      rcases hB _ _ hv2 with hold | ⟨hk, hvv⟩
      · exact hc s2 g2 rr v2 hold
      · have h1 : getId s2 = getId sourceTile.hex := congrArg Prod.fst hk
        have h23 := congrArg Prod.snd hk
        have h2 : getId g2 = getId t.hex := congrArg Prod.fst h23
        have h3 : rr = sourceRange := congrArg Prod.snd h23
        rw [hinj h1, hinj h2, h3, hvv, overrideTraverse_eq]
        exact calcED_false_fst_indep _ _ _ _ _ c PathfindingCache.empty _ _
    rw [hcl]
    rw [show meleePure sourceTile targetTiles sourceRange getTile canTraverse getId
        fuel cl (t :: ts) =
      meleePure sourceTile targetTiles sourceRange getTile canTraverse getId fuel
        (meleeUpdate sourceTile targetTiles getId cl t
          (calculateEffectiveDistance sourceTile.hex t.hex sourceRange getTile
            (overrideAt canTraverse t.hex) false PathfindingCache.empty getId
            fuel).1) ts from rfl]
    obtain ⟨ihA, ihB, ihC, ihD⟩ := ih
      (meleeUpdate sourceTile targetTiles getId cl t
        (calculateEffectiveDistance sourceTile.hex t.hex sourceRange getTile
          (overrideAt canTraverse t.hex) false PathfindingCache.empty getId fuel).1)
      ((calculateEffectiveDistance sourceTile.hex t.hex sourceRange getTile
          (overrideTraverse canTraverse t) true c getId fuel).2) hinv2
    exact ⟨ihA, ihB, by rw [ihC, hE2], by rw [ihD, hE3]⟩

/-- The ranged selection of `findClosestTarget` (BFS result filtering
followed by the tie-break fold); it never consults the cache. -/
def rangedPick (sourceTile : GridTile) (targetTiles : List GridTile)
    (sourceRange : Int) (getTile : Hex → Option GridTile)
    (canTraverse : GridTile → Bool) (getId : Hex → Int) : Option TargetResult :=
  let targetHexes := targetTiles.map (·.hex)
  let rangedResult := calculateRangedMovementDistance sourceTile.hex targetHexes
    sourceRange getTile canTraverse
  if !rangedResult.canReach || rangedResult.reachableTargets = [] then none
  else
    let candidateTargets := targetTiles.filter
      (fun tile => rangedResult.reachableTargets.any (fun rh => rh == tile.hex))
    match candidateTargets with
    | [] => none
    | c0 :: rest =>
      some ⟨getId (rest.foldl (tieBreakPick getId sourceTile.hex) c0).hex,
        rangedResult.movementDistance⟩

/-- On the ranged branch `findClosestTarget` is the pure ranged
selection and passes the cache through untouched, in both modes. -/
theorem fCT_ranged (sourceTile : GridTile) (targetTiles : List GridTile)
    (sourceRange : Int) (getTile : Hex → Option GridTile)
    (canTraverse : GridTile → Bool) (gridPreset : GridPreset) (b : Bool)
    (c : PathfindingCache) (getId : Hex → Int) (fuel : Nat)
    (h1 : ¬ targetTiles = []) (h2 : 1 < sourceRange) :
    findClosestTarget sourceTile targetTiles sourceRange getTile canTraverse
      gridPreset b c getId fuel =
      (rangedPick sourceTile targetTiles sourceRange getTile canTraverse getId, c) := by
  simp only [findClosestTarget, rangedPick]
  rw [if_neg h1, if_pos h2]
  split
  · rfl
  · split <;> rfl

/-- With caching disabled `findClosestTarget` leaves the cache
untouched, and its result does not depend on the incoming cache. -/
theorem fCT_false (sourceTile : GridTile) (targetTiles : List GridTile)
    (sourceRange : Int) (getTile : Hex → Option GridTile)
    (canTraverse : GridTile → Bool) (gridPreset : GridPreset)
    (c : PathfindingCache) (getId : Hex → Int) (fuel : Nat) :
    findClosestTarget sourceTile targetTiles sourceRange getTile canTraverse
      gridPreset false c getId fuel =
      ((findClosestTarget sourceTile targetTiles sourceRange getTile canTraverse
        gridPreset false PathfindingCache.empty getId fuel).1, c) := by
  by_cases h1 : targetTiles = []
  · subst h1
    simp only [findClosestTarget, if_true]
  · by_cases h2 : 1 < sourceRange
    · rw [fCT_ranged sourceTile targetTiles sourceRange getTile canTraverse
        gridPreset false c getId fuel h1 h2,
        fCT_ranged sourceTile targetTiles sourceRange getTile canTraverse
        gridPreset false PathfindingCache.empty getId fuel h1 h2]
    · simp only [findClosestTarget]
      rw [if_neg h1, if_neg h2, if_neg h1, if_neg h2]
      rw [melee_fold_false sourceTile targetTiles sourceRange getTile canTraverse
        getId fuel targetTiles none c,
        melee_fold_false sourceTile targetTiles sourceRange getTile canTraverse
        getId fuel targetTiles none PathfindingCache.empty]

/-- One cached `findClosestTarget` call from a coherent cache returns
the uncached result, keeps the cache coherent, and touches neither
aggregate-map cache. -/
theorem findClosestTarget_sim (sourceTile : GridTile) (targetTiles : List GridTile)
    (sourceRange : Int) (getTile : Hex → Option GridTile)
    (canTraverse : GridTile → Bool) (gridPreset : GridPreset)
    (getId : Hex → Int) (fuel : Nat) (hinj : Function.Injective getId)
    (c : PathfindingCache) (hc : EffInv getTile canTraverse getId fuel c) :
    (findClosestTarget sourceTile targetTiles sourceRange getTile canTraverse
      gridPreset true c getId fuel).1 =
      (findClosestTarget sourceTile targetTiles sourceRange getTile canTraverse
        gridPreset false PathfindingCache.empty getId fuel).1 ∧
    EffInv getTile canTraverse getId fuel
      ((findClosestTarget sourceTile targetTiles sourceRange getTile canTraverse
        gridPreset true c getId fuel).2) ∧
    ((findClosestTarget sourceTile targetTiles sourceRange getTile canTraverse
      gridPreset true c getId fuel).2).closestEnemyCache = c.closestEnemyCache ∧
    ((findClosestTarget sourceTile targetTiles sourceRange getTile canTraverse
      gridPreset true c getId fuel).2).closestAllyCache = c.closestAllyCache := by
  by_cases h1 : targetTiles = []
  · subst h1
    have he : ∀ (b : Bool) (cc : PathfindingCache),
        findClosestTarget sourceTile [] sourceRange getTile canTraverse gridPreset
          b cc getId fuel = (none, cc) := by
      intro b cc
      simp only [findClosestTarget, if_true]
    rw [he true c, he false PathfindingCache.empty]
    exact ⟨rfl, hc, rfl, rfl⟩
  · by_cases h2 : 1 < sourceRange
    · rw [fCT_ranged sourceTile targetTiles sourceRange getTile canTraverse
        gridPreset true c getId fuel h1 h2,
        fCT_ranged sourceTile targetTiles sourceRange getTile canTraverse
        gridPreset false PathfindingCache.empty getId fuel h1 h2]
      exact ⟨rfl, hc, rfl, rfl⟩
    · simp only [findClosestTarget]
      rw [if_neg h1, if_neg h2, if_neg h1, if_neg h2]
      rw [melee_fold_false sourceTile targetTiles sourceRange getTile canTraverse
        getId fuel targetTiles none PathfindingCache.empty]
      obtain ⟨hA, hB, hC, hD⟩ := melee_fold_true sourceTile targetTiles sourceRange
        getTile canTraverse getId fuel hinj targetTiles none c hc
      exact ⟨hA.trans rfl, hB, hC, hD⟩

/-- The per-character source range used by the aggregate maps (default
1 when the tile has no character or the character has no entry). -/
def tileRange (ranges : List (String × Int)) (t : GridTile) : Int :=
  match t.character with
  | some c => (lookupRange ranges c).getD 1
  | none => 1

/-- The per-ally body of the enemy map, written through `tileRange`. -/
theorem enemyMapStep_eq (enemyTiles : List GridTile)
    (ranges : List (String × Int)) (gridPreset : GridPreset) (b : Bool)
    (gth : Hex → Option GridTile) (getId : Hex → Int) (fuel : Nat)
    (acc : List (Int × TargetInfo) × PathfindingCache) (a : GridTile) :
    enemyMapStep enemyTiles ranges gridPreset b gth getId fuel acc a =
      (mapRecordEnemy getId acc.1 a
        (findClosestTarget a enemyTiles (tileRange ranges a) gth defaultCanTraverse
          gridPreset b acc.2 getId fuel).1,
       (findClosestTarget a enemyTiles (tileRange ranges a) gth defaultCanTraverse
          gridPreset b acc.2 getId fuel).2) := rfl

/-- The per-enemy body of the ally map, written through `tileRange`. -/
theorem allyMapStep_eq (allyTiles : List GridTile)
    (ranges : List (String × Int)) (gridPreset : GridPreset) (b : Bool)
    (gth : Hex → Option GridTile) (getId : Hex → Int) (fuel : Nat)
    (acc : List (Int × TargetInfo) × PathfindingCache) (e : GridTile) :
    allyMapStep allyTiles ranges gridPreset b gth getId fuel acc e =
      (mapRecordAlly getId acc.1 e
        (findClosestTarget e allyTiles (tileRange ranges e) gth defaultCanTraverse
          gridPreset b acc.2 getId fuel).1,
       (findClosestTarget e allyTiles (tileRange ranges e) gth defaultCanTraverse
          gridPreset b acc.2 getId fuel).2) := rfl

/-- The cache-free unfolding of the enemy-map fold: record, per ally,
the closest enemy computed without caching. -/
def enemyMapPure (enemyTiles : List GridTile) (ranges : List (String × Int))
    (gridPreset : GridPreset) (gth : Hex → Option GridTile) (getId : Hex → Int)
    (fuel : Nat) : List (Int × TargetInfo) → List GridTile → List (Int × TargetInfo)
  | m, [] => m
  | m, a :: as =>
    enemyMapPure enemyTiles ranges gridPreset gth getId fuel
      (mapRecordEnemy getId m a
        (findClosestTarget a enemyTiles (tileRange ranges a) gth defaultCanTraverse
          gridPreset false PathfindingCache.empty getId fuel).1)
      as

/-- The cache-free unfolding of the ally-map fold. -/
def allyMapPure (allyTiles : List GridTile) (ranges : List (String × Int))
    (gridPreset : GridPreset) (gth : Hex → Option GridTile) (getId : Hex → Int)
    (fuel : Nat) : List (Int × TargetInfo) → List GridTile → List (Int × TargetInfo)
  | m, [] => m
  | m, e :: es =>
    allyMapPure allyTiles ranges gridPreset gth getId fuel
      (mapRecordAlly getId m e
        (findClosestTarget e allyTiles (tileRange ranges e) gth defaultCanTraverse
          gridPreset false PathfindingCache.empty getId fuel).1)
      es

/-- With caching disabled the enemy-map fold is its cache-free
unfolding and leaves the cache untouched. -/
theorem enemy_fold_false (enemyTiles : List GridTile)
    (ranges : List (String × Int)) (gridPreset : GridPreset)
    (gth : Hex → Option GridTile) (getId : Hex → Int) (fuel : Nat) :
    ∀ (as : List GridTile) (m : List (Int × TargetInfo)) (c : PathfindingCache),
    as.foldl (enemyMapStep enemyTiles ranges gridPreset false gth getId fuel)
        (m, c) =
      (enemyMapPure enemyTiles ranges gridPreset gth getId fuel m as, c)
  | [], m, c => rfl
  | a :: as, m, c => by
    rw [List.foldl_cons, enemyMapStep_eq]
    rw [fCT_false a enemyTiles (tileRange ranges a) gth defaultCanTraverse
      gridPreset c getId fuel]
    rw [show ((m, c) : List (Int × TargetInfo) × PathfindingCache).1 = m from rfl]
    rw [enemy_fold_false enemyTiles ranges gridPreset gth getId fuel as _ c]
    rfl

/-- With caching disabled the ally-map fold is its cache-free
unfolding and leaves the cache untouched. -/
theorem ally_fold_false (allyTiles : List GridTile)
    (ranges : List (String × Int)) (gridPreset : GridPreset)
    (gth : Hex → Option GridTile) (getId : Hex → Int) (fuel : Nat) :
    ∀ (es : List GridTile) (m : List (Int × TargetInfo)) (c : PathfindingCache),
    es.foldl (allyMapStep allyTiles ranges gridPreset false gth getId fuel)
        (m, c) =
      (allyMapPure allyTiles ranges gridPreset gth getId fuel m es, c)
  | [], m, c => rfl
  | e :: es, m, c => by
    rw [List.foldl_cons, allyMapStep_eq]
    rw [fCT_false e allyTiles (tileRange ranges e) gth defaultCanTraverse
      gridPreset c getId fuel]
    rw [show ((m, c) : List (Int × TargetInfo) × PathfindingCache).1 = m from rfl]
    rw [ally_fold_false allyTiles ranges gridPreset gth getId fuel es _ c]
    rfl

/-- With caching enabled and a coherent cache, the enemy-map fold
computes its cache-free unfolding, keeps the cache coherent and leaves
both aggregate-map caches untouched. -/
theorem enemy_fold_true (enemyTiles : List GridTile)
    (ranges : List (String × Int)) (gridPreset : GridPreset)
    (gth : Hex → Option GridTile) (getId : Hex → Int) (fuel : Nat)
    (hinj : Function.Injective getId) :
    ∀ (as : List GridTile) (m : List (Int × TargetInfo)) (c : PathfindingCache),
    EffInv gth defaultCanTraverse getId fuel c →
    (as.foldl (enemyMapStep enemyTiles ranges gridPreset true gth getId fuel)
        (m, c)).1 =
      enemyMapPure enemyTiles ranges gridPreset gth getId fuel m as ∧
    EffInv gth defaultCanTraverse getId fuel
      ((as.foldl (enemyMapStep enemyTiles ranges gridPreset true gth getId fuel)
        (m, c)).2) ∧
    ((as.foldl (enemyMapStep enemyTiles ranges gridPreset true gth getId fuel)
      (m, c)).2).closestEnemyCache = c.closestEnemyCache ∧
    ((as.foldl (enemyMapStep enemyTiles ranges gridPreset true gth getId fuel)
      (m, c)).2).closestAllyCache = c.closestAllyCache := by
  intro as
  induction as with
  | nil => exact fun m c hc => ⟨rfl, hc, rfl, rfl⟩
  | cons a as ih =>
    intro m c hc
    rw [List.foldl_cons, enemyMapStep_eq]
    rw [show ((m, c) : List (Int × TargetInfo) × PathfindingCache).2 = c from rfl,
        show ((m, c) : List (Int × TargetInfo) × PathfindingCache).1 = m from rfl]
    obtain ⟨hA, hB, hC, hD⟩ := findClosestTarget_sim a enemyTiles (tileRange ranges a)
      gth defaultCanTraverse gridPreset getId fuel hinj c hc
    rw [hA]
    rw [show enemyMapPure enemyTiles ranges gridPreset gth getId fuel m (a :: as) =
      enemyMapPure enemyTiles ranges gridPreset gth getId fuel
        (mapRecordEnemy getId m a
          (findClosestTarget a enemyTiles (tileRange ranges a) gth defaultCanTraverse
            gridPreset false PathfindingCache.empty getId fuel).1) as from rfl]
    obtain ⟨ihA, ihB, ihC, ihD⟩ := ih
      (mapRecordEnemy getId m a
        (findClosestTarget a enemyTiles (tileRange ranges a) gth defaultCanTraverse
          gridPreset false PathfindingCache.empty getId fuel).1)
      ((findClosestTarget a enemyTiles (tileRange ranges a) gth defaultCanTraverse
        gridPreset true c getId fuel).2) hB
    exact ⟨ihA, ihB, by rw [ihC, hC], by rw [ihD, hD]⟩

/-- With caching enabled and a coherent cache, the ally-map fold
computes its cache-free unfolding, keeps the cache coherent and leaves
both aggregate-map caches untouched. -/
theorem ally_fold_true (allyTiles : List GridTile)
    (ranges : List (String × Int)) (gridPreset : GridPreset)
    (gth : Hex → Option GridTile) (getId : Hex → Int) (fuel : Nat)
    (hinj : Function.Injective getId) :
    ∀ (es : List GridTile) (m : List (Int × TargetInfo)) (c : PathfindingCache),
    EffInv gth defaultCanTraverse getId fuel c →
    (es.foldl (allyMapStep allyTiles ranges gridPreset true gth getId fuel)
        (m, c)).1 =
      allyMapPure allyTiles ranges gridPreset gth getId fuel m es ∧
    EffInv gth defaultCanTraverse getId fuel
      ((es.foldl (allyMapStep allyTiles ranges gridPreset true gth getId fuel)
        (m, c)).2) ∧
    ((es.foldl (allyMapStep allyTiles ranges gridPreset true gth getId fuel)
      (m, c)).2).closestEnemyCache = c.closestEnemyCache ∧
    ((es.foldl (allyMapStep allyTiles ranges gridPreset true gth getId fuel)
      (m, c)).2).closestAllyCache = c.closestAllyCache := by
  intro es
  induction es with
  | nil => exact fun m c hc => ⟨rfl, hc, rfl, rfl⟩
  | cons e es ih =>
    intro m c hc
    rw [List.foldl_cons, allyMapStep_eq]
    rw [show ((m, c) : List (Int × TargetInfo) × PathfindingCache).2 = c from rfl,
        show ((m, c) : List (Int × TargetInfo) × PathfindingCache).1 = m from rfl]
    obtain ⟨hA, hB, hC, hD⟩ := findClosestTarget_sim e allyTiles (tileRange ranges e)
      gth defaultCanTraverse gridPreset getId fuel hinj c hc
    rw [hA]
    rw [show allyMapPure allyTiles ranges gridPreset gth getId fuel m (e :: es) =
      allyMapPure allyTiles ranges gridPreset gth getId fuel
        (mapRecordAlly getId m e
          (findClosestTarget e allyTiles (tileRange ranges e) gth defaultCanTraverse
            gridPreset false PathfindingCache.empty getId fuel).1) es from rfl]
    obtain ⟨ihA, ihB, ihC, ihD⟩ := ih
      (mapRecordAlly getId m e
        (findClosestTarget e allyTiles (tileRange ranges e) gth defaultCanTraverse
          gridPreset false PathfindingCache.empty getId fuel).1)
      ((findClosestTarget e allyTiles (tileRange ranges e) gth defaultCanTraverse
        gridPreset true c getId fuel).2) hB
    exact ⟨ihA, ihB, by rw [ihC, hC], by rw [ihD, hD]⟩

/-- With caching disabled `getClosestEnemyMap` is the cache-free
unfolding of its per-ally fold, with the cache untouched. -/
theorem enemyMap_false_eq (tiles : List GridTile) (ranges : List (String × Int))
    (gridPreset : GridPreset) (getTileM : Option (Hex → Option GridTile))
    (c : PathfindingCache) (getId : Hex → Int) (fuel : Nat) :
    getClosestEnemyMap tiles ranges gridPreset false getTileM c getId fuel =
      (enemyMapPure (tiles.filter (fun tile => tile.team == some Team.ENEMY)) ranges
        gridPreset (tileHelper getTileM tiles) getId fuel []
        (tiles.filter (fun tile => tile.team == some Team.ALLY)), c) := by
  rw [getClosestEnemyMap_false]
  rw [enemy_fold_false (tiles.filter (fun tile => tile.team == some Team.ENEMY))
    ranges gridPreset (tileHelper getTileM tiles) getId fuel
    (tiles.filter (fun tile => tile.team == some Team.ALLY)) [] c]

/-- With caching disabled `getClosestAllyMap` is the cache-free
unfolding of its per-enemy fold, with the cache untouched. -/
theorem allyMap_false_eq (tiles : List GridTile) (ranges : List (String × Int))
    (gridPreset : GridPreset) (getTileM : Option (Hex → Option GridTile))
    (c : PathfindingCache) (getId : Hex → Int) (fuel : Nat) :
    getClosestAllyMap tiles ranges gridPreset false getTileM c getId fuel =
      (allyMapPure (tiles.filter (fun tile => tile.team == some Team.ALLY)) ranges
        gridPreset (tileHelper getTileM tiles) getId fuel []
        (tiles.filter (fun tile => tile.team == some Team.ENEMY)), c) := by
  rw [getClosestAllyMap_false]
  rw [ally_fold_false (tiles.filter (fun tile => tile.team == some Team.ALLY))
    ranges gridPreset (tileHelper getTileM tiles) getId fuel
    (tiles.filter (fun tile => tile.team == some Team.ENEMY)) [] c]

/-- One cached `getClosestEnemyMap` call from a coherent cache returns
the uncached aggregate and keeps both relevant invariants. -/
theorem getClosestEnemyMap_sim (tiles : List GridTile)
    (ranges : List (String × Int)) (gridPreset : GridPreset)
    (getTileM : Option (Hex → Option GridTile)) (getId : Hex → Int) (fuel : Nat)
    (hinj : Function.Injective getId) (c : PathfindingCache)
    (hEff : EffInv (tileHelper getTileM tiles) defaultCanTraverse getId fuel c)
    (hOwn : ∀ v, c.closestEnemyCache.lookup (generateGridCacheKey tiles ranges) =
        some v →
      v = (getClosestEnemyMap tiles ranges gridPreset false getTileM
        PathfindingCache.empty getId fuel).1) :
    (getClosestEnemyMap tiles ranges gridPreset true getTileM c getId fuel).1 =
      (getClosestEnemyMap tiles ranges gridPreset false getTileM
        PathfindingCache.empty getId fuel).1 ∧
    EffInv (tileHelper getTileM tiles) defaultCanTraverse getId fuel
      ((getClosestEnemyMap tiles ranges gridPreset true getTileM c getId fuel).2) ∧
    ∀ v, ((getClosestEnemyMap tiles ranges gridPreset true getTileM c getId
        fuel).2).closestEnemyCache.lookup (generateGridCacheKey tiles ranges) =
        some v →
      v = (getClosestEnemyMap tiles ranges gridPreset false getTileM
        PathfindingCache.empty getId fuel).1 := by
  cases hlk : c.closestEnemyCache.lookup (generateGridCacheKey tiles ranges) with
  | some v =>
    have h1 : getClosestEnemyMap tiles ranges gridPreset true getTileM c getId fuel =
        (v, { c with closestEnemyCache :=
          (c.closestEnemyCache.get (generateGridCacheKey tiles ranges)).2 }) := by
      simp only [getClosestEnemyMap]
      rw [MemoCache.get_fst, hlk, if_true]
    rw [h1]
    refine ⟨hOwn v hlk, ?_, ?_⟩
    · intro s g r v2 h2
      exact hEff s g r v2 h2
    · intro v2 h2
      have h3 : ((c.closestEnemyCache.get (generateGridCacheKey tiles ranges)).2).lookup
          (generateGridCacheKey tiles ranges) = some v2 := h2
      rw [MemoCache.get_lookup] at h3
      exact hOwn v2 h3
  | none =>
    have hgf : c.closestEnemyCache.get (generateGridCacheKey tiles ranges) =
        (none, c.closestEnemyCache) := MemoCache.get_of_lookup_none _ _ hlk
    obtain ⟨hA, hB, hC, hD⟩ := enemy_fold_true
      (tiles.filter (fun tile => tile.team == some Team.ENEMY)) ranges gridPreset
      (tileHelper getTileM tiles) getId fuel hinj
      (tiles.filter (fun tile => tile.team == some Team.ALLY)) [] c hEff
    have h1 : getClosestEnemyMap tiles ranges gridPreset true getTileM c getId fuel =
        (((tiles.filter (fun tile => tile.team == some Team.ALLY)).foldl
            (enemyMapStep (tiles.filter (fun tile => tile.team == some Team.ENEMY))
              ranges gridPreset true (tileHelper getTileM tiles) getId fuel)
            ([], c)).1,
         { ((tiles.filter (fun tile => tile.team == some Team.ALLY)).foldl
            (enemyMapStep (tiles.filter (fun tile => tile.team == some Team.ENEMY))
              ranges gridPreset true (tileHelper getTileM tiles) getId fuel)
            ([], c)).2 with
           closestEnemyCache :=
            (((tiles.filter (fun tile => tile.team == some Team.ALLY)).foldl
              (enemyMapStep (tiles.filter (fun tile => tile.team == some Team.ENEMY))
                ranges gridPreset true (tileHelper getTileM tiles) getId fuel)
              ([], c)).2).closestEnemyCache.set (generateGridCacheKey tiles ranges)
              (((tiles.filter (fun tile => tile.team == some Team.ALLY)).foldl
                (enemyMapStep (tiles.filter (fun tile => tile.team == some Team.ENEMY))
                  ranges gridPreset true (tileHelper getTileM tiles) getId fuel)
                ([], c)).1) }) := by
      simp only [getClosestEnemyMap]
      rw [hgf]
      rfl
    rw [h1, enemyMap_false_eq]
    refine ⟨hA, ?_, ?_⟩
    · intro s g r v2 h2
      exact hB s g r v2 h2
    · intro v2 h2
      have h3 : ((((tiles.filter (fun tile => tile.team == some Team.ALLY)).foldl
          (enemyMapStep (tiles.filter (fun tile => tile.team == some Team.ENEMY))
            ranges gridPreset true (tileHelper getTileM tiles) getId fuel)
          ([], c)).2).closestEnemyCache.set (generateGridCacheKey tiles ranges)
          (((tiles.filter (fun tile => tile.team == some Team.ALLY)).foldl
            (enemyMapStep (tiles.filter (fun tile => tile.team == some Team.ENEMY))
              ranges gridPreset true (tileHelper getTileM tiles) getId fuel)
            ([], c)).1)).lookup (generateGridCacheKey tiles ranges) = some v2 := h2
      rcases MemoCache.lookup_set _ _ _ _ _ h3 with ⟨hk, hv⟩ | hold
      · rw [hv]
        exact hA
      · rw [hC] at hold
        have h4 := hOwn v2 hold
        rw [enemyMap_false_eq] at h4
        exact h4

/-- One cached `getClosestAllyMap` call from a coherent cache returns
the uncached aggregate and keeps both relevant invariants. -/
theorem getClosestAllyMap_sim (tiles : List GridTile)
    (ranges : List (String × Int)) (gridPreset : GridPreset)
    (getTileM : Option (Hex → Option GridTile)) (getId : Hex → Int) (fuel : Nat)
    (hinj : Function.Injective getId) (c : PathfindingCache)
    (hEff : EffInv (tileHelper getTileM tiles) defaultCanTraverse getId fuel c)
    (hOwn : ∀ v, c.closestAllyCache.lookup (generateGridCacheKey tiles ranges) =
        some v →
      v = (getClosestAllyMap tiles ranges gridPreset false getTileM
        PathfindingCache.empty getId fuel).1) :
    (getClosestAllyMap tiles ranges gridPreset true getTileM c getId fuel).1 =
      (getClosestAllyMap tiles ranges gridPreset false getTileM
        PathfindingCache.empty getId fuel).1 ∧
    EffInv (tileHelper getTileM tiles) defaultCanTraverse getId fuel
      ((getClosestAllyMap tiles ranges gridPreset true getTileM c getId fuel).2) ∧
    ∀ v, ((getClosestAllyMap tiles ranges gridPreset true getTileM c getId
        fuel).2).closestAllyCache.lookup (generateGridCacheKey tiles ranges) =
        some v →
      v = (getClosestAllyMap tiles ranges gridPreset false getTileM
        PathfindingCache.empty getId fuel).1 := by
  cases hlk : c.closestAllyCache.lookup (generateGridCacheKey tiles ranges) with
  | some v =>
    have h1 : getClosestAllyMap tiles ranges gridPreset true getTileM c getId fuel =
        (v, { c with closestAllyCache :=
          (c.closestAllyCache.get (generateGridCacheKey tiles ranges)).2 }) := by
      simp only [getClosestAllyMap]
      rw [MemoCache.get_fst, hlk, if_true]
    rw [h1]
    refine ⟨hOwn v hlk, ?_, ?_⟩
    · intro s g r v2 h2
      exact hEff s g r v2 h2
    · intro v2 h2
      have h3 : ((c.closestAllyCache.get (generateGridCacheKey tiles ranges)).2).lookup
          (generateGridCacheKey tiles ranges) = some v2 := h2
      rw [MemoCache.get_lookup] at h3
      exact hOwn v2 h3
  | none =>
    have hgf : c.closestAllyCache.get (generateGridCacheKey tiles ranges) =
        (none, c.closestAllyCache) := MemoCache.get_of_lookup_none _ _ hlk
    obtain ⟨hA, hB, hC, hD⟩ := ally_fold_true
      (tiles.filter (fun tile => tile.team == some Team.ALLY)) ranges gridPreset
      (tileHelper getTileM tiles) getId fuel hinj
      (tiles.filter (fun tile => tile.team == some Team.ENEMY)) [] c hEff
    have h1 : getClosestAllyMap tiles ranges gridPreset true getTileM c getId fuel =
        (((tiles.filter (fun tile => tile.team == some Team.ENEMY)).foldl
            (allyMapStep (tiles.filter (fun tile => tile.team == some Team.ALLY))
              ranges gridPreset true (tileHelper getTileM tiles) getId fuel)
            ([], c)).1,
         { ((tiles.filter (fun tile => tile.team == some Team.ENEMY)).foldl
            (allyMapStep (tiles.filter (fun tile => tile.team == some Team.ALLY))
              ranges gridPreset true (tileHelper getTileM tiles) getId fuel)
            ([], c)).2 with
           closestAllyCache :=
            (((tiles.filter (fun tile => tile.team == some Team.ENEMY)).foldl
              (allyMapStep (tiles.filter (fun tile => tile.team == some Team.ALLY))
                ranges gridPreset true (tileHelper getTileM tiles) getId fuel)
              ([], c)).2).closestAllyCache.set (generateGridCacheKey tiles ranges)
              (((tiles.filter (fun tile => tile.team == some Team.ENEMY)).foldl
                (allyMapStep (tiles.filter (fun tile => tile.team == some Team.ALLY))
                  ranges gridPreset true (tileHelper getTileM tiles) getId fuel)
                ([], c)).1) }) := by
      simp only [getClosestAllyMap]
      rw [hgf]
      rfl
    rw [h1, allyMap_false_eq]
    refine ⟨hA, ?_, ?_⟩
    · intro s g r v2 h2
      exact hB s g r v2 h2
    · intro v2 h2
      have h3 : ((((tiles.filter (fun tile => tile.team == some Team.ENEMY)).foldl
          (allyMapStep (tiles.filter (fun tile => tile.team == some Team.ALLY))
            ranges gridPreset true (tileHelper getTileM tiles) getId fuel)
          ([], c)).2).closestAllyCache.set (generateGridCacheKey tiles ranges)
          (((tiles.filter (fun tile => tile.team == some Team.ENEMY)).foldl
            (allyMapStep (tiles.filter (fun tile => tile.team == some Team.ALLY))
              ranges gridPreset true (tileHelper getTileM tiles) getId fuel)
            ([], c)).1)).lookup (generateGridCacheKey tiles ranges) = some v2 := h2
      rcases MemoCache.lookup_set _ _ _ _ _ h3 with ⟨hk, hv⟩ | hold
      · rw [hv]
        exact hA
      · rw [hD] at hold
        have h4 := hOwn v2 hold
        rw [allyMap_false_eq] at h4
        exact h4

/-- The results of `n` repeated `calculateEffectiveDistance` calls over
identical inputs, threading the cache between calls. -/
def iterCED (start goal : Hex) (range : Int) (getTile : Hex → Option GridTile)
    (canTraverse : GridTile → Bool) (b : Bool) (getId : Hex → Int) (fuel : Nat) :
    Nat → PathfindingCache → List DistanceResult
  | 0, _ => []
  | n + 1, c =>
    (calculateEffectiveDistance start goal range getTile canTraverse b c getId
      fuel).1 ::
      iterCED start goal range getTile canTraverse b getId fuel n
        (calculateEffectiveDistance start goal range getTile canTraverse b c getId
          fuel).2

/-- The results of `n` repeated `findClosestTarget` calls over
identical inputs, threading the cache between calls. -/
def iterFCT (sourceTile : GridTile) (targetTiles : List GridTile)
    (sourceRange : Int) (getTile : Hex → Option GridTile)
    (canTraverse : GridTile → Bool) (gridPreset : GridPreset) (b : Bool)
    (getId : Hex → Int) (fuel : Nat) :
    Nat → PathfindingCache → List (Option TargetResult)
  | 0, _ => []
  | n + 1, c =>
    (findClosestTarget sourceTile targetTiles sourceRange getTile canTraverse
      gridPreset b c getId fuel).1 ::
      iterFCT sourceTile targetTiles sourceRange getTile canTraverse gridPreset b
        getId fuel n
        (findClosestTarget sourceTile targetTiles sourceRange getTile canTraverse
          gridPreset b c getId fuel).2

/-- The results of `n` repeated `getClosestEnemyMap` calls over
identical inputs, threading the cache between calls. -/
def iterEnemyMap (tiles : List GridTile) (ranges : List (String × Int))
    (gridPreset : GridPreset) (b : Bool) (getTileM : Option (Hex → Option GridTile))
    (getId : Hex → Int) (fuel : Nat) :
    Nat → PathfindingCache → List (List (Int × TargetInfo))
  | 0, _ => []
  | n + 1, c =>
    (getClosestEnemyMap tiles ranges gridPreset b getTileM c getId fuel).1 ::
      iterEnemyMap tiles ranges gridPreset b getTileM getId fuel n
        (getClosestEnemyMap tiles ranges gridPreset b getTileM c getId fuel).2

/-- The results of `n` repeated `getClosestAllyMap` calls over
identical inputs, threading the cache between calls. -/
def iterAllyMap (tiles : List GridTile) (ranges : List (String × Int))
    (gridPreset : GridPreset) (b : Bool) (getTileM : Option (Hex → Option GridTile))
    (getId : Hex → Int) (fuel : Nat) :
    Nat → PathfindingCache → List (List (Int × TargetInfo))
  | 0, _ => []
  | n + 1, c =>
    (getClosestAllyMap tiles ranges gridPreset b getTileM c getId fuel).1 ::
      iterAllyMap tiles ranges gridPreset b getTileM getId fuel n
        (getClosestAllyMap tiles ranges gridPreset b getTileM c getId fuel).2

/-- Uncached repetition yields the same uncached result every time. -/
theorem iterCED_false (start goal : Hex) (range : Int)
    (getTile : Hex → Option GridTile) (canTraverse : GridTile → Bool)
    (getId : Hex → Int) (fuel : Nat) :
    ∀ (n : Nat) (c : PathfindingCache),
    iterCED start goal range getTile canTraverse false getId fuel n c =
      List.replicate n (calculateEffectiveDistance start goal range getTile
        canTraverse false PathfindingCache.empty getId fuel).1
  | 0, c => rfl
  | n + 1, c => by
    rw [show iterCED start goal range getTile canTraverse false getId fuel (n + 1) c =
      (calculateEffectiveDistance start goal range getTile canTraverse false c getId
        fuel).1 ::
        iterCED start goal range getTile canTraverse false getId fuel n
          (calculateEffectiveDistance start goal range getTile canTraverse false c
            getId fuel).2 from rfl]
    rw [calcED_false_cache,
      calcED_false_fst_indep start goal range getTile canTraverse c
        PathfindingCache.empty getId fuel,
      iterCED_false start goal range getTile canTraverse getId fuel n c,
      List.replicate_succ]

/-- Cached repetition from a cache whose entry for the call key (if
any) is the uncached result yields the uncached result every time. -/
theorem iterCED_true (start goal : Hex) (range : Int)
    (getTile : Hex → Option GridTile) (canTraverse : GridTile → Bool)
    (getId : Hex → Int) (fuel : Nat) :
    ∀ (n : Nat) (c : PathfindingCache),
    (∀ v, c.effectiveDistanceCache.lookup (getId start, getId goal, range) = some v →
      v = (calculateEffectiveDistance start goal range getTile canTraverse false
        PathfindingCache.empty getId fuel).1) →
    iterCED start goal range getTile canTraverse true getId fuel n c =
      List.replicate n (calculateEffectiveDistance start goal range getTile
        canTraverse false PathfindingCache.empty getId fuel).1
  | 0, c, h => rfl
  | n + 1, c, h => by
    have hhit : ∀ v, c.effectiveDistanceCache.lookup
        (getId start, getId goal, range) = some v →
        v = (calculateEffectiveDistance start goal range getTile canTraverse false c
          getId fuel).1 := fun v hv => (h v hv).trans
      (calcED_false_fst_indep start goal range getTile canTraverse
        PathfindingCache.empty c getId fuel)
    obtain ⟨hA, hB⟩ := calcED_true_step start goal range getTile canTraverse c getId
      fuel hhit
    rw [show iterCED start goal range getTile canTraverse true getId fuel (n + 1) c =
      (calculateEffectiveDistance start goal range getTile canTraverse true c getId
        fuel).1 ::
        iterCED start goal range getTile canTraverse true getId fuel n
          (calculateEffectiveDistance start goal range getTile canTraverse true c
            getId fuel).2 from rfl]
    rw [hA,
      calcED_false_fst_indep start goal range getTile canTraverse c
        PathfindingCache.empty getId fuel,
      iterCED_true start goal range getTile canTraverse getId fuel n
        (calculateEffectiveDistance start goal range getTile canTraverse true c getId
          fuel).2
        (fun v hv => by
          rcases hB _ _ hv with hold | ⟨hk, hvv⟩
          · exact h v hold
          · rw [hvv]
            exact calcED_false_fst_indep start goal range getTile canTraverse c
              PathfindingCache.empty getId fuel),
      List.replicate_succ]

/-- Uncached repetition of `findClosestTarget` yields the same
uncached result every time. -/
theorem iterFCT_false (sourceTile : GridTile) (targetTiles : List GridTile)
    (sourceRange : Int) (getTile : Hex → Option GridTile)
    (canTraverse : GridTile → Bool) (gridPreset : GridPreset)
    (getId : Hex → Int) (fuel : Nat) :
    ∀ (n : Nat) (c : PathfindingCache),
    iterFCT sourceTile targetTiles sourceRange getTile canTraverse gridPreset false
        getId fuel n c =
      List.replicate n (findClosestTarget sourceTile targetTiles sourceRange getTile
        canTraverse gridPreset false PathfindingCache.empty getId fuel).1
  | 0, c => rfl
  | n + 1, c => by
    rw [show iterFCT sourceTile targetTiles sourceRange getTile canTraverse
        gridPreset false getId fuel (n + 1) c =
      (findClosestTarget sourceTile targetTiles sourceRange getTile canTraverse
        gridPreset false c getId fuel).1 ::
        iterFCT sourceTile targetTiles sourceRange getTile canTraverse gridPreset
          false getId fuel n
          (findClosestTarget sourceTile targetTiles sourceRange getTile canTraverse
            gridPreset false c getId fuel).2 from rfl]
    rw [fCT_false sourceTile targetTiles sourceRange getTile canTraverse gridPreset c
      getId fuel]
    rw [iterFCT_false sourceTile targetTiles sourceRange getTile canTraverse
      gridPreset getId fuel n c, List.replicate_succ]

/-- Cached repetition of `findClosestTarget` from a coherent cache
yields the uncached result every time. -/
theorem iterFCT_true (sourceTile : GridTile) (targetTiles : List GridTile)
    (sourceRange : Int) (getTile : Hex → Option GridTile)
    (canTraverse : GridTile → Bool) (gridPreset : GridPreset)
    (getId : Hex → Int) (fuel : Nat) (hinj : Function.Injective getId) :
    ∀ (n : Nat) (c : PathfindingCache),
    EffInv getTile canTraverse getId fuel c →
    iterFCT sourceTile targetTiles sourceRange getTile canTraverse gridPreset true
        getId fuel n c =
      List.replicate n (findClosestTarget sourceTile targetTiles sourceRange getTile
        canTraverse gridPreset false PathfindingCache.empty getId fuel).1
  | 0, c, hc => rfl
  | n + 1, c, hc => by
    obtain ⟨hA, hB, hC, hD⟩ := findClosestTarget_sim sourceTile targetTiles
      sourceRange getTile canTraverse gridPreset getId fuel hinj c hc
    rw [show iterFCT sourceTile targetTiles sourceRange getTile canTraverse
        gridPreset true getId fuel (n + 1) c =
      (findClosestTarget sourceTile targetTiles sourceRange getTile canTraverse
        gridPreset true c getId fuel).1 ::
        iterFCT sourceTile targetTiles sourceRange getTile canTraverse gridPreset
          true getId fuel n
          (findClosestTarget sourceTile targetTiles sourceRange getTile canTraverse
            gridPreset true c getId fuel).2 from rfl]
    rw [hA,
      iterFCT_true sourceTile targetTiles sourceRange getTile canTraverse gridPreset
        getId fuel hinj n
        (findClosestTarget sourceTile targetTiles sourceRange getTile canTraverse
          gridPreset true c getId fuel).2 hB,
      List.replicate_succ]

/-- Uncached repetition of `getClosestEnemyMap` yields the same
uncached aggregate every time. -/
theorem iterEnemyMap_false (tiles : List GridTile) (ranges : List (String × Int))
    (gridPreset : GridPreset) (getTileM : Option (Hex → Option GridTile))
    (getId : Hex → Int) (fuel : Nat) :
    ∀ (n : Nat) (c : PathfindingCache),
    iterEnemyMap tiles ranges gridPreset false getTileM getId fuel n c =
      List.replicate n (getClosestEnemyMap tiles ranges gridPreset false getTileM
        PathfindingCache.empty getId fuel).1
  | 0, c => rfl
  | n + 1, c => by
    rw [show iterEnemyMap tiles ranges gridPreset false getTileM getId fuel (n + 1) c =
      (getClosestEnemyMap tiles ranges gridPreset false getTileM c getId fuel).1 ::
        iterEnemyMap tiles ranges gridPreset false getTileM getId fuel n
          (getClosestEnemyMap tiles ranges gridPreset false getTileM c getId fuel).2
      from rfl]
    rw [enemyMap_false_eq tiles ranges gridPreset getTileM c getId fuel,
      iterEnemyMap_false tiles ranges gridPreset getTileM getId fuel n c,
      enemyMap_false_eq tiles ranges gridPreset getTileM PathfindingCache.empty getId
        fuel,
      List.replicate_succ]

/-- Cached repetition of `getClosestEnemyMap` from a coherent cache
yields the uncached aggregate every time. -/
theorem iterEnemyMap_true (tiles : List GridTile) (ranges : List (String × Int))
    (gridPreset : GridPreset) (getTileM : Option (Hex → Option GridTile))
    (getId : Hex → Int) (fuel : Nat) (hinj : Function.Injective getId) :
    ∀ (n : Nat) (c : PathfindingCache),
    EffInv (tileHelper getTileM tiles) defaultCanTraverse getId fuel c →
    (∀ v, c.closestEnemyCache.lookup (generateGridCacheKey tiles ranges) = some v →
      v = (getClosestEnemyMap tiles ranges gridPreset false getTileM
        PathfindingCache.empty getId fuel).1) →
    iterEnemyMap tiles ranges gridPreset true getTileM getId fuel n c =
      List.replicate n (getClosestEnemyMap tiles ranges gridPreset false getTileM
        PathfindingCache.empty getId fuel).1
  | 0, c, hEff, hOwn => rfl
  | n + 1, c, hEff, hOwn => by
    obtain ⟨hA, hB, hO⟩ := getClosestEnemyMap_sim tiles ranges gridPreset getTileM
      getId fuel hinj c hEff hOwn
    rw [show iterEnemyMap tiles ranges gridPreset true getTileM getId fuel (n + 1) c =
      (getClosestEnemyMap tiles ranges gridPreset true getTileM c getId fuel).1 ::
        iterEnemyMap tiles ranges gridPreset true getTileM getId fuel n
          (getClosestEnemyMap tiles ranges gridPreset true getTileM c getId fuel).2
      from rfl]
    rw [hA,
      iterEnemyMap_true tiles ranges gridPreset getTileM getId fuel hinj n
        (getClosestEnemyMap tiles ranges gridPreset true getTileM c getId fuel).2
        hB hO,
      List.replicate_succ]

/-- Uncached repetition of `getClosestAllyMap` yields the same
uncached aggregate every time. -/
theorem iterAllyMap_false (tiles : List GridTile) (ranges : List (String × Int))
    (gridPreset : GridPreset) (getTileM : Option (Hex → Option GridTile))
    (getId : Hex → Int) (fuel : Nat) :
    ∀ (n : Nat) (c : PathfindingCache),
    iterAllyMap tiles ranges gridPreset false getTileM getId fuel n c =
      List.replicate n (getClosestAllyMap tiles ranges gridPreset false getTileM
        PathfindingCache.empty getId fuel).1
  | 0, c => rfl
  | n + 1, c => by
    rw [show iterAllyMap tiles ranges gridPreset false getTileM getId fuel (n + 1) c =
      (getClosestAllyMap tiles ranges gridPreset false getTileM c getId fuel).1 ::
        iterAllyMap tiles ranges gridPreset false getTileM getId fuel n
          (getClosestAllyMap tiles ranges gridPreset false getTileM c getId fuel).2
      from rfl]
    rw [allyMap_false_eq tiles ranges gridPreset getTileM c getId fuel,
      iterAllyMap_false tiles ranges gridPreset getTileM getId fuel n c,
      allyMap_false_eq tiles ranges gridPreset getTileM PathfindingCache.empty getId
        fuel,
      List.replicate_succ]

/-- Cached repetition of `getClosestAllyMap` from a coherent cache
yields the uncached aggregate every time. -/
theorem iterAllyMap_true (tiles : List GridTile) (ranges : List (String × Int))
    (gridPreset : GridPreset) (getTileM : Option (Hex → Option GridTile))
    (getId : Hex → Int) (fuel : Nat) (hinj : Function.Injective getId) :
    ∀ (n : Nat) (c : PathfindingCache),
    EffInv (tileHelper getTileM tiles) defaultCanTraverse getId fuel c →
    (∀ v, c.closestAllyCache.lookup (generateGridCacheKey tiles ranges) = some v →
      v = (getClosestAllyMap tiles ranges gridPreset false getTileM
        PathfindingCache.empty getId fuel).1) →
    iterAllyMap tiles ranges gridPreset true getTileM getId fuel n c =
      List.replicate n (getClosestAllyMap tiles ranges gridPreset false getTileM
        PathfindingCache.empty getId fuel).1
  | 0, c, hEff, hOwn => rfl
  | n + 1, c, hEff, hOwn => by
    obtain ⟨hA, hB, hO⟩ := getClosestAllyMap_sim tiles ranges gridPreset getTileM
      getId fuel hinj c hEff hOwn
    rw [show iterAllyMap tiles ranges gridPreset true getTileM getId fuel (n + 1) c =
      (getClosestAllyMap tiles ranges gridPreset true getTileM c getId fuel).1 ::
        iterAllyMap tiles ranges gridPreset true getTileM getId fuel n
          (getClosestAllyMap tiles ranges gridPreset true getTileM c getId fuel).2
      from rfl]
    rw [hA,
      iterAllyMap_true tiles ranges gridPreset getTileM getId fuel hinj n
        (getClosestAllyMap tiles ranges gridPreset true getTileM c getId fuel).2
        hB hO,
      List.replicate_succ]

/-- A fresh cache answers no effective-distance lookup. -/
theorem PathfindingCache.empty_eff (k : Int × Int × Int) :
    PathfindingCache.empty.effectiveDistanceCache.lookup k = none := rfl

/-- A fresh cache answers no closest-enemy lookup. -/
theorem PathfindingCache.empty_enemy (k : List GridTile × List (String × Int)) :
    PathfindingCache.empty.closestEnemyCache.lookup k = none := rfl

/-- A fresh cache answers no closest-ally lookup. -/
theorem PathfindingCache.empty_ally (k : List GridTile × List (String × Int)) :
    PathfindingCache.empty.closestAllyCache.lookup k = none := rfl

/-- C3: cache transparency.  For every input and every number of
repeated calls over identical inputs starting from a fresh cache,
`calculateEffectiveDistance`, `findClosestTarget`, `getClosestEnemyMap`
and `getClosestAllyMap` return with `cachingEnabled = true` exactly the
results they return with `cachingEnabled = false`; caching changes only
the threaded cache state, never a computed result.  The hex identifier
assignment of the missing `hex.ts` is modelled as an arbitrary
injective function. -/
theorem claim_C3_cache_transparency
    (getId : Hex → Int) (hinj : Function.Injective getId)
    (start goal : Hex) (range : Int) (getTile : Hex → Option GridTile)
    (canTraverse : GridTile → Bool) (sourceTile : GridTile)
    (targetTiles : List GridTile) (sourceRange : Int) (gridPreset : GridPreset)
    (tiles : List GridTile) (ranges : List (String × Int))
    (getTileM : Option (Hex → Option GridTile)) (fuel : Nat) (n : Nat) :
    iterCED start goal range getTile canTraverse true getId fuel n
        PathfindingCache.empty =
      iterCED start goal range getTile canTraverse false getId fuel n
        PathfindingCache.empty ∧
    iterFCT sourceTile targetTiles sourceRange getTile canTraverse gridPreset true
        getId fuel n PathfindingCache.empty =
      iterFCT sourceTile targetTiles sourceRange getTile canTraverse gridPreset
        false getId fuel n PathfindingCache.empty ∧
    iterEnemyMap tiles ranges gridPreset true getTileM getId fuel n
        PathfindingCache.empty =
      iterEnemyMap tiles ranges gridPreset false getTileM getId fuel n
        PathfindingCache.empty ∧
    iterAllyMap tiles ranges gridPreset true getTileM getId fuel n
        PathfindingCache.empty =
      iterAllyMap tiles ranges gridPreset false getTileM getId fuel n
        PathfindingCache.empty := by
  refine ⟨?_, ?_, ?_, ?_⟩
  · rw [iterCED_true start goal range getTile canTraverse getId fuel n
        PathfindingCache.empty
        (fun v hv => by
          rw [PathfindingCache.empty_eff] at hv
          exact absurd hv (by simp)),
      iterCED_false start goal range getTile canTraverse getId fuel n
        PathfindingCache.empty]
  · rw [iterFCT_true sourceTile targetTiles sourceRange getTile canTraverse
        gridPreset getId fuel hinj n PathfindingCache.empty
        (EffInv_empty getTile canTraverse getId fuel),
      iterFCT_false sourceTile targetTiles sourceRange getTile canTraverse
        gridPreset getId fuel n PathfindingCache.empty]
  · rw [iterEnemyMap_true tiles ranges gridPreset getTileM getId fuel hinj n
        PathfindingCache.empty
        (EffInv_empty (tileHelper getTileM tiles) defaultCanTraverse getId fuel)
        (fun v hv => by
          rw [PathfindingCache.empty_enemy] at hv
          exact absurd hv (by simp)),
      iterEnemyMap_false tiles ranges gridPreset getTileM getId fuel n
        PathfindingCache.empty]
  · rw [iterAllyMap_true tiles ranges gridPreset getTileM getId fuel hinj n
        PathfindingCache.empty
        (EffInv_empty (tileHelper getTileM tiles) defaultCanTraverse getId fuel)
        (fun v hv => by
          rw [PathfindingCache.empty_ally] at hv
          exact absurd hv (by simp)),
      iterAllyMap_false tiles ranges gridPreset getTileM getId fuel n
        PathfindingCache.empty]

/-- An injective encoding of the integers into the naturals. -/
def intEnc (z : Int) : Nat :=
  if z < 0 then 2 * z.natAbs + 1 else 2 * z.natAbs

/-- The integer encoding is injective. -/
theorem intEnc_inj : Function.Injective intEnc := by
  intro a b h
  unfold intEnc at h
  split at h <;> split at h <;> omega

/-- A concrete injective hex identifier assignment (pairing the
encodings of the two axial coordinates). -/
def wInjId : Hex → Int :=
  fun h => Int.ofNat (Nat.pair (intEnc h.q) (intEnc h.r))

/-- The concrete identifier assignment is injective. -/
theorem wInjId_inj : Function.Injective wInjId := by
  intro a b h
  have h2 := Int.ofNat.inj h
  obtain ⟨hq, hr⟩ := Nat.pair_eq_pair.mp h2
  have hq2 := intEnc_inj hq
  have hr2 := intEnc_inj hr
  cases a
  cases b
  simp only [Hex.mk.injEq]
  exact ⟨hq2, hr2⟩

/-- C3 witness: the concrete identifier assignment separates two hexes,
and the transparency theorem instantiated at concrete inputs (two
repetitions over a six-tile strip). -/
theorem claim_C3_witness :
    wInjId ⟨0, 0⟩ ≠ wInjId ⟨1, 0⟩ ∧
    (iterCED ⟨0, 0⟩ ⟨2, 0⟩ 0 wC5MeleeGetTile defaultCanTraverse true wInjId 30 2
        PathfindingCache.empty =
      iterCED ⟨0, 0⟩ ⟨2, 0⟩ 0 wC5MeleeGetTile defaultCanTraverse false wInjId 30 2
        PathfindingCache.empty ∧
    iterFCT wC5Src [wC5M1, wC5M2] 1 wC5MeleeGetTile defaultCanTraverse FULL_GRID
        true wInjId 30 2 PathfindingCache.empty =
      iterFCT wC5Src [wC5M1, wC5M2] 1 wC5MeleeGetTile defaultCanTraverse FULL_GRID
        false wInjId 30 2 PathfindingCache.empty ∧
    iterEnemyMap wC10Tiles [] FULL_GRID true none wInjId 30 2
        PathfindingCache.empty =
      iterEnemyMap wC10Tiles [] FULL_GRID false none wInjId 30 2
        PathfindingCache.empty ∧
    iterAllyMap wC10Tiles [] FULL_GRID true none wInjId 30 2
        PathfindingCache.empty =
      iterAllyMap wC10Tiles [] FULL_GRID false none wInjId 30 2
        PathfindingCache.empty) :=
  ⟨by decide,
   claim_C3_cache_transparency wInjId wInjId_inj ⟨0, 0⟩ ⟨2, 0⟩ 0 wC5MeleeGetTile
     defaultCanTraverse wC5Src [wC5M1, wC5M2] 1 FULL_GRID wC10Tiles [] none 30 2⟩

end Chippy
